import Mathlib

/-!
Conflict resolution over configuration sets

A shallow embedding of `org/antlr/v4/runtime/atn/PredictionMode.cpp`: the pure
queries over lists of alternative subsets (`BitSet`s), the two grouping maps
(`getConflictingAltSubsets`, `getStateToAltMap`) and the termination test
`hasSLLConflictTerminatingPrediction`.

The declarations of `BitSet`, `ATNState`, `ATNConfig`, `ATNConfigSet`,
`SemanticContext`, `PredictionContext` and `ATN` are not part of the source
tree; the data model below follows section 3 of the specification for them.
Invocation contexts are an arbitrary linearly ordered type `Ctx` (its equality
is the deep equality of contexts), semantic contexts are `Option Sem` with
`none` standing for `SemanticContext::NONE`, and the constant
`ATN::INVALID_ALT_NUMBER` is a parameter of the functions that return it.
-/

namespace Atn

/-! ## Data model -/

/-- Modelled from the spec: the `BitSet` type, whose declaration is not in the
source tree. "Alternative Subset: a set of alternative numbers sharing a
conflict key". A bit set is the finite set of the positions of its set bits. -/
abbrev BitSet := Finset Nat

/-- The call `b.count()`: the number of set bits. -/
def BitSet.count (b : BitSet) : Nat := Finset.card b

/-- The call `b.set(i)`: the bit set with bit `i` switched on. -/
def BitSet.set (b : BitSet) (i : Nat) : BitSet := insert i b

/-- The read access `b[i]`. -/
def BitSet.test (b : BitSet) (i : Nat) : Bool := decide (i ∈ b)

/-- The call `b.size()`: a number of bit positions below which every set bit
lies (one more than the highest set bit, `1` for the empty bit set). -/
def BitSet.size (b : BitSet) : Nat := Finset.sup b id + 1

/-- The scan `for (int i = 0; i < b.size(); ++i) if (b[i]) ...` that the
source marks with "Create a nextBit helper function": the first index whose
bit is set, `none` when the loop runs to its end. -/
def firstSetBit (b : BitSet) : Option Nat :=
  (List.range (BitSet.size b)).find? (fun i => BitSet.test b i)

/-- Modelled from the spec: `ATNState` (declared outside the source tree), "an
external, identity-comparable node of the transition network (stateNumber is
its identity for hashing/equality)". `isRuleStopState` is the outcome of
`dynamic_cast<RuleStopState*>(state) != NULL`. -/
structure ATNState where
  stateNumber : Int
  isRuleStopState : Bool
deriving DecidableEq, Repr

/-- The expression `*c.state` stored as a key of `std::map<ATNState, BitSet>`
(line 211): the key is a copy of static type `ATNState`, so the copy of a
`RuleStopState` is sliced to a plain state, on which the dynamic cast to
`RuleStopState` yields `NULL`. -/
def ATNState.slice (s : ATNState) : ATNState :=
  { stateNumber := s.stateNumber, isRuleStopState := false }

/-- Modelled from the spec: `ATNConfig` (declared outside the source tree), the
hypothesis tuple "(state, alternative: small positive integer,
invocation-context, optional semantic-context)". The alternative is a bit
index, hence a natural number. -/
structure ATNConfig (Ctx Sem : Type) where
  state : ATNState
  alt : Nat
  context : Ctx
  semanticContext : Option Sem
deriving DecidableEq, Repr

/-- Modelled from the spec: `ATNConfigSet` (declared outside the source tree),
"a collection of Configurations ... annotated with a flag has semantic
context". `configs` is the iteration order of the set. -/
structure ATNConfigSet (Ctx Sem : Type) where
  configs : List (ATNConfig Ctx Sem)
  hasSemanticContext : Bool
deriving DecidableEq, Repr

/-- The three prediction modes. -/
inductive PredictionMode where
  | SLL
  | LL
  | LL_EXACT_AMBIG_DETECTION
deriving DecidableEq, Repr

deriving instance DecidableEq for Except

/-- Failures of a run of `getSingleViableAlt`: an `assert` that does not hold,
or (with assertions compiled out) the call `viableAlts.set(-1)`, which names
no bit position. -/
inductive Fault where
  | assertion
  | badIndex
deriving DecidableEq, Repr

section Model

variable {Ctx Sem : Type} [LinearOrder Ctx]

/-- The copy constructor call `ATNConfig(&config, semanticContext)`: the same
state, alternative and invocation context with the given semantic context. -/
def ATNConfig.withSemanticContext (c : ATNConfig Ctx Sem) (p : Option Sem) :
    ATNConfig Ctx Sem :=
  { state := c.state, alt := c.alt, context := c.context, semanticContext := p }

/-- The conflict key of a configuration: state number and invocation context,
the two components `AltAndContextConfigEqualityComparator` reads. -/
def conflictKey (c : ATNConfig Ctx Sem) : Lex (Int × Ctx) :=
  toLex (c.state.stateNumber, c.context)

/-- The default constructor `ATNConfigSet()`. -/
def ATNConfigSet.empty : ATNConfigSet Ctx Sem :=
  { configs := [], hasSemanticContext := false }

/-- Modelled from the spec: `ATNConfigSet::add`, not in the source tree. The
set is "semantically a set (duplicate (state, context, alt) triples collapse),
annotated with a flag has semantic context (true if any configuration carries
a non-trivial predicate)". -/
def ATNConfigSet.add (s : ATNConfigSet Ctx Sem) (c : ATNConfig Ctx Sem) :
    ATNConfigSet Ctx Sem :=
  { configs :=
      if s.configs.any (fun d => decide (conflictKey d = conflictKey c ∧ d.alt = c.alt))
      then s.configs else s.configs ++ [c],
    hasSemanticContext := s.hasSemanticContext || c.semanticContext.isSome }

/-- The statement `m[e].set(bit)` on a `std::map` with `BitSet` values. The
entries are held in ascending order of `key`; two elements are the same map
key when neither is below the other. A missing entry is created with an empty
bit set before the bit is set. -/
def mapSetBit {E K : Type} [LinearOrder K] (key : E → K) (e : E) (bit : Nat) :
    List (E × BitSet) → List (E × BitSet)
  | [] => [(e, BitSet.set ∅ bit)]
  | (e', v) :: rest =>
    if key e < key e' then (e, BitSet.set ∅ bit) :: (e', v) :: rest
    else if key e' < key e then (e', v) :: mapSetBit key e bit rest
    else (e', BitSet.set v bit) :: rest

/-- The loop of `getConflictingAltSubsets` that fills `configToAlts`.
Modelled from the spec: the ordering of `AltAndContextMap` keys (the
`operator<` of `ATNConfig` is not in the source tree) compares the conflict key
only: "A Map that uses just the state and the stack context as the key". -/
def configToAlts (configs : ATNConfigSet Ctx Sem) : List (ATNConfig Ctx Sem × BitSet) :=
  configs.configs.foldl (fun m c => mapSetBit conflictKey c c.alt m) []

/-- Source lines 196-206. -/
def getConflictingAltSubsets (configs : ATNConfigSet Ctx Sem) : List BitSet :=
  (configToAlts configs).map Prod.snd

/-- Source lines 208-214. The key of `m[*c.state]` is the sliced copy of the
state of the configuration. Modelled from the spec: the ordering of the
`ATNState` keys (its `operator<` is not in the source tree) compares the state
number, "stateNumber is its identity for hashing/equality". -/
def getStateToAltMap (configs : ATNConfigSet Ctx Sem) : List (ATNState × BitSet) :=
  configs.configs.foldl
    (fun m c => mapSetBit ATNState.stateNumber (ATNState.slice c.state) c.alt m) []

/-- Modelled from the spec: `hasStateAssociatedWithOneAlt` is called by
`hasSLLConflictTerminatingPrediction` but defined nowhere in the source tree;
"derive it from getStateToAltMap (state → alt-set ignoring context) and treat
associated with one alt as some state's alt-set has cardinality one". -/
def hasStateAssociatedWithOneAlt (configs : ATNConfigSet Ctx Sem) : Bool :=
  (getStateToAltMap configs).any (fun e => BitSet.count e.2 == 1)

/-- Source lines 114-122. -/
def hasConfigInRuleStopState (configs : ATNConfigSet Ctx Sem) : Bool :=
  configs.configs.any (fun c => c.state.isRuleStopState)

/-- Source lines 124-132. -/
def allConfigsInRuleStopStates (configs : ATNConfigSet Ctx Sem) : Bool :=
  configs.configs.all (fun c => c.state.isRuleStopState)

/-- Source lines 96-102: the duplicate of the configuration set with every
semantic context replaced by `SemanticContext::NONE`. -/
def dupWithoutPredicates (configs : ATNConfigSet Ctx Sem) : ATNConfigSet Ctx Sem :=
  configs.configs.foldl (fun dup config => dup.add (config.withSemanticContext none))
    ATNConfigSet.empty

/-- The configuration set that lines 90-105 leave in `configs`. -/
def analysedConfigs (mode : PredictionMode) (configs : ATNConfigSet Ctx Sem) :
    ATNConfigSet Ctx Sem :=
  if mode = PredictionMode.SLL then
    if configs.hasSemanticContext then dupWithoutPredicates configs else configs
  else configs

end Model

/-- Source lines 142-149. -/
def hasNonConflictingAltSet (altsets : List BitSet) : Bool :=
  altsets.any (fun alts => BitSet.count alts == 1)

/-- Source lines 138-140. -/
def allSubsetsConflict (altsets : List BitSet) : Bool :=
  !hasNonConflictingAltSet altsets

/-- Source lines 151-158. -/
def hasConflictingAltSet (altsets : List BitSet) : Bool :=
  altsets.any (fun alts => decide (BitSet.count alts > 1))

/-- Source lines 160-173. -/
def allSubsetsEqual (altsets : List BitSet) : Bool :=
  match altsets with
  | [] => true
  | first :: _ => altsets.all (fun alts => !decide (alts ≠ first))

/-- Source lines 188-194. -/
def getAlts (altsets : List BitSet) : BitSet :=
  altsets.foldl (fun all alts => all ∪ alts) ∅

/-- Source lines 175-186. -/
def getUniqueAlt (INVALID_ALT_NUMBER : Int) (altsets : List BitSet) : Int :=
  let all := getAlts altsets
  if BitSet.count all = 1 then
    match firstSetBit all with
    | some i => (i : Int)
    | none => INVALID_ALT_NUMBER
  else INVALID_ALT_NUMBER

/-- The loop of `getSingleViableAlt` (lines 218-233) from a given value of
`viableAlts`, followed by lines 235-241. With `assertsOn = false` the asserts
are compiled out. -/
def getSingleViableAltFrom (assertsOn : Bool) (INVALID_ALT_NUMBER : Int) :
    List BitSet → BitSet → Except Fault Int
  | [], viableAlts =>
    match firstSetBit viableAlts with
    | some i => .ok (i : Int)
    | none => if assertsOn then .error Fault.assertion else .ok (-1)
  | alts :: rest, viableAlts =>
    match firstSetBit alts with
    | none => if assertsOn then .error Fault.assertion else .error Fault.badIndex
    | some minAlt =>
      let viableAlts := BitSet.set viableAlts minAlt
      if BitSet.count viableAlts > 1 then .ok INVALID_ALT_NUMBER
      else getSingleViableAltFrom assertsOn INVALID_ALT_NUMBER rest viableAlts

/-- Source lines 216-242. -/
def getSingleViableAlt (assertsOn : Bool) (INVALID_ALT_NUMBER : Int)
    (altsets : List BitSet) : Except Fault Int :=
  getSingleViableAltFrom assertsOn INVALID_ALT_NUMBER altsets ∅

/-- Source lines 134-136. -/
def resolvesToJustOneViableAlt (assertsOn : Bool) (INVALID_ALT_NUMBER : Int)
    (altsets : List BitSet) : Except Fault Int :=
  getSingleViableAlt assertsOn INVALID_ALT_NUMBER altsets

/-- Source lines 79-112. -/
def hasSLLConflictTerminatingPrediction {Ctx Sem : Type} [LinearOrder Ctx]
    (mode : PredictionMode) (configs : ATNConfigSet Ctx Sem) : Bool :=
  if allConfigsInRuleStopStates configs then true
  else
    let configs := analysedConfigs mode configs
    let altsets := getConflictingAltSubsets configs
    let heuristic := hasConflictingAltSet altsets && !hasStateAssociatedWithOneAlt configs
    heuristic

/-! ## Sample configuration sets -/

/-- Two configurations of state 5 with the same context and alternatives 1 and 2. -/
def sampleConflict : ATNConfigSet Nat Nat :=
  { configs := [⟨⟨5, false⟩, 1, 0, none⟩, ⟨⟨5, false⟩, 2, 0, none⟩],
    hasSemanticContext := false }

/-- Configurations (state 5, alt 1, ctx 0) and (state 7, alt 2, ctx 1). -/
def sampleClean : ATNConfigSet Nat Nat :=
  { configs := [⟨⟨5, false⟩, 1, 0, none⟩, ⟨⟨7, false⟩, 2, 1, none⟩],
    hasSemanticContext := false }

/-- Two configurations in rule-stop states, with alternatives 1 and 2. -/
def sampleRuleStop : ATNConfigSet Nat Nat :=
  { configs := [⟨⟨3, true⟩, 1, 0, none⟩, ⟨⟨4, true⟩, 2, 0, none⟩],
    hasSemanticContext := false }

/-- Two configurations of state 5 and one context, with predicates, for the
alternatives 1 and 2. -/
def samplePredicated : ATNConfigSet Nat Nat :=
  { configs := [⟨⟨5, false⟩, 1, 0, some 10⟩, ⟨⟨5, false⟩, 2, 0, some 11⟩],
    hasSemanticContext := true }

/-- Two configurations of alternative 3, in states 5 and 7. -/
def sampleOneAlt : ATNConfigSet Nat Nat :=
  { configs := [⟨⟨5, false⟩, 3, 0, none⟩, ⟨⟨7, false⟩, 3, 1, none⟩],
    hasSemanticContext := false }

/-- The empty configuration set. -/
def sampleEmpty : ATNConfigSet Nat Nat :=
  { configs := [], hasSemanticContext := false }

/-- Configurations of states 5 and 7: state 5 under two contexts with the
alternatives 1 and 2, state 7 with alternative 2. -/
def sampleTwoStates : ATNConfigSet Nat Nat :=
  { configs := [⟨⟨5, false⟩, 1, 0, none⟩, ⟨⟨7, false⟩, 2, 1, none⟩, ⟨⟨5, false⟩, 2, 1, none⟩],
    hasSemanticContext := false }

/-! ## Configuration sets behind pointers -/

/-- The objects that `ATNConfigSet*` pointers designate. A pointer is a position
of the store; the caller's object and the one made by `new ATNConfigSet()` are
two entries of it. -/
abbrev Store (Ctx Sem : Type) := List (ATNConfigSet Ctx Sem)

/-- The expression `new ATNConfigSet()` (line 97): the address of a fresh, empty
set and the store extended with it. -/
def Store.alloc {Ctx Sem : Type} (h : Store Ctx Sem) : Nat × Store Ctx Sem :=
  (h.length, h ++ [ATNConfigSet.empty])

/-- The call `p->add(c)` (line 100): the set at address `p` is replaced by the
set with `c` added; every other object of the store is left as it is. -/
def Store.add {Ctx Sem : Type} [LinearOrder Ctx] :
    Store Ctx Sem → Nat → ATNConfig Ctx Sem → Store Ctx Sem
  | [], _, _ => []
  | s :: rest, 0, c => s.add c :: rest
  | s :: rest, p + 1, c => s :: Store.add rest p c

/-- Source lines 79-112 with the configuration sets held in a store: `configs`
is the pointer the caller passes, the result is the returned flag and the
store after the call (`none` when a pointer designates no object). The loop of
line 98 runs over the elements the caller's set has when the loop starts. -/
def hasSLLConflictTerminatingPredictionOnStore {Ctx Sem : Type} [LinearOrder Ctx]
    (mode : PredictionMode) (configs : Nat) (h : Store Ctx Sem) :
    Option (Bool × Store Ctx Sem) :=
  match h[configs]? with
  | none => none
  | some cs =>
    if allConfigsInRuleStopStates cs then some (true, h)
    else
      let r : Nat × Store Ctx Sem :=
        if mode = PredictionMode.SLL then
          if cs.hasSemanticContext then
            let a := Store.alloc h
            (a.1, cs.configs.foldl
              (fun h' config => Store.add h' a.1 (config.withSemanticContext none)) a.2)
          else (configs, h)
        else (configs, h)
      match r.2[r.1]? with
      | none => none
      | some cs' =>
        let altsets := getConflictingAltSubsets cs'
        some (hasConflictingAltSet altsets && !hasStateAssociatedWithOneAlt cs', r.2)

/-! ## The no-viable-alternative record -/

/-- Modelled from the spec: the reads of a `Parser` that the one-argument
constructor of `NoViableAltException` performs (`getInputStream()`,
`getCurrentToken()` and the field `_ctx`, all declared in Parser.h without a
body). -/
structure RecognizerReads (Tok Stream RuleCtx : Type) where
  getInputStream : Stream
  getCurrentToken : Tok
  _ctx : RuleCtx

/-- Modelled from the spec: `NoViableAltException`, of which the sources hold
the class declaration only (NoViableAltException.h, lines 53-77). The record
"carries the dead-end configuration set, the token at the start of the failed
decision, the offending token, and the rule-context snapshot at failure time";
`deadEndConfigs` and `startToken` are the two `*const` fields of the class, the
others are those of the base class `RecognitionException`. A null
`deadEndConfigs` is `none`. -/
structure NoViableAltException (Tok Stream RuleCtx CfgSet : Type) where
  input : Stream
  offendingToken : Tok
  ctx : RuleCtx
  deadEndConfigs : Option CfgSet
  startToken : Tok

/-- Modelled from the spec: the six-argument constructor (line 71), which
stores its arguments. -/
def NoViableAltException.create {Tok Stream RuleCtx CfgSet : Type}
    (recognizer : RecognizerReads Tok Stream RuleCtx) (input : Stream) (startToken : Tok)
    (offendingToken : Tok) (deadEndConfigs : Option CfgSet) (ctx : RuleCtx) :
    NoViableAltException Tok Stream RuleCtx CfgSet :=
  let _ := recognizer
  { input := input, offendingToken := offendingToken, ctx := ctx,
    deadEndConfigs := deadEndConfigs, startToken := startToken }

/-- Modelled from the spec: the one-argument constructor for an LL(1) error,
which line 69 documents as `this(recognizer, recognizer.getInputStream(),
recognizer.getCurrentToken(), recognizer.getCurrentToken(), nullptr,
recognizer._ctx)`. -/
def NoViableAltException.createLL1 {Tok Stream RuleCtx CfgSet : Type}
    (recognizer : RecognizerReads Tok Stream RuleCtx) :
    NoViableAltException Tok Stream RuleCtx CfgSet :=
  NoViableAltException.create recognizer recognizer.getInputStream recognizer.getCurrentToken
    recognizer.getCurrentToken none recognizer._ctx

/-- Modelled from the spec: `getStartToken()` (line 73), the read of the
`startToken` field. -/
def NoViableAltException.getStartToken {Tok Stream RuleCtx CfgSet : Type}
    (e : NoViableAltException Tok Stream RuleCtx CfgSet) : Tok :=
  e.startToken

/-- Modelled from the spec: `getDeadEndConfigs()` (line 75), the read of the
`deadEndConfigs` field. -/
def NoViableAltException.getDeadEndConfigs {Tok Stream RuleCtx CfgSet : Type}
    (e : NoViableAltException Tok Stream RuleCtx CfgSet) : Option CfgSet :=
  e.deadEndConfigs

/-- The public member functions of `NoViableAltException` (lines 73-75). -/
inductive NoViableAltCall where
  | getStartToken
  | getDeadEndConfigs
deriving DecidableEq, Repr

/-- One call of a member function on the record: the record after the call
together with what the call returned (a token or a configuration set). -/
def NoViableAltException.call {Tok Stream RuleCtx CfgSet : Type}
    (e : NoViableAltException Tok Stream RuleCtx CfgSet) :
    NoViableAltCall → NoViableAltException Tok Stream RuleCtx CfgSet × (Tok ⊕ Option CfgSet)
  | NoViableAltCall.getStartToken => (e, Sum.inl e.getStartToken)
  | NoViableAltCall.getDeadEndConfigs => (e, Sum.inr e.getDeadEndConfigs)

/-- The record after a sequence of member-function calls. -/
def NoViableAltException.afterCalls {Tok Stream RuleCtx CfgSet : Type}
    (e : NoViableAltException Tok Stream RuleCtx CfgSet) (calls : List NoViableAltCall) :
    NoViableAltException Tok Stream RuleCtx CfgSet :=
  calls.foldl (fun r c => (r.call c).1) e


/-! ## The conflict-key comparator -/

/-- Source lines 61-70. A pointer to a configuration is a position of `heap`,
`none` is `nullptr`; the result is `none` when a pointer that is dereferenced
designates no object. The call `a->context->equals(b->context)` is the deep
equality of contexts, which is the equality of `Ctx`. -/
def AltAndContextConfigEqualityComparator.equals {Ctx Sem : Type} [DecidableEq Ctx]
    (heap : List (ATNConfig Ctx Sem)) (a b : Option Nat) : Option Bool :=
  if a = b then some true
  else
    match a, b with
    | none, _ => some false
    | _, none => some false
    | some i, some j =>
      match heap[i]?, heap[j]? with
      | some x, some y =>
        some (decide (x.state.stateNumber = y.state.stateNumber) && decide (x.context = y.context))
      | _, _ => none

/-- Modelled from the spec: the functions of `runtime::misc::MurmurHash`, a class
that is not in the source tree, as parameters (`init` is its `initialize`, a
reserved word here). The update with `o->context`
mixes in the hash of the context: "mix of state number and context hash via a
2-word Murmur-style finish". -/
structure MurmurHash (Ctx : Type) where
  init : Int → Int
  update : Int → Int → Int
  finish : Int → Int → Int
  contextHash : Ctx → Int

/-- Source lines 53-58. -/
def AltAndContextConfigEqualityComparator.hashCode {Ctx Sem : Type} (M : MurmurHash Ctx)
    (o : ATNConfig Ctx Sem) : Int :=
  let hashCode := M.init 7
  let hashCode := M.update hashCode o.state.stateNumber
  let hashCode := M.update hashCode (M.contextHash o.context)
  M.finish hashCode 2

/-- A sample hash: a polynomial mix modulo 2^32. -/
def sampleMurmur : MurmurHash Nat :=
  { init := fun seed => seed,
    update := fun h v => (31 * h + v) % 4294967296,
    finish := fun h n => (h + n) % 4294967296,
    contextHash := fun c => (c : Int) }

/-- A heap of three configurations: two with conflict key (5, 0) and different
alternatives and predicates, one with conflict key (7, 0). -/
def sampleHeap : List (ATNConfig Nat Nat) :=
  [⟨⟨5, false⟩, 1, 0, some 10⟩, ⟨⟨5, false⟩, 2, 0, none⟩, ⟨⟨7, false⟩, 1, 0, none⟩]

/-! ## The parser scaffolding -/

/-- Modelled from the spec: a token, of which the parser reads the type ("a
small integer with reserved sentinels: end-of-input = −1, invalid = 0") and the
index in the stream (−1 for a token synthesized by recovery). -/
structure Token where
  type : Int
  tokenIndex : Int
deriving DecidableEq, Repr

/-- Modelled from the spec: a child of a rule context, a terminal node, an
error node or a nested rule context (by rule index). -/
inductive ParseTreeNode where
  | terminal (symbol : Token)
  | errorNode (symbol : Token)
  | ruleNode (ruleIndex : Int)
deriving DecidableEq, Repr

/-- Modelled from the spec: a rule context, with "the invoking state", the rule
index "fixed at creation" and the "children appended during the rule body". -/
structure ParserRuleContext where
  invokingState : Int
  ruleIndex : Int
  children : List ParseTreeNode
deriving DecidableEq, Repr

/-- Modelled from the spec: the kinds of recognition failure of section 7. -/
inductive RecognitionFailure where
  | noViableAlternative
  | inputMismatch
  | failedPredicate
deriving DecidableEq, Repr

/-- The callbacks of a parse listener fired by `consume`. -/
inductive ListenerCall where
  | visitTerminal (symbol : Token)
  | visitErrorNode (symbol : Token)
deriving DecidableEq, Repr

/-- The calls that `match` and `matchWildcard` make on the error strategy. -/
inductive StrategyCall where
  | reportMatch
  | recoverInline
deriving DecidableEq, Repr

/-- Modelled from the spec: the part of a `Parser` (Parser.h declares the
members, their bodies are not in the source tree) that is public or reachable
through public member functions: the token stream `_input` with its position,
the current context `_ctx`, the tree-building flag, the syntax-error counter and
the listener callbacks fired so far. -/
structure ParserPublic where
  tokens : List Token
  index : Nat
  _ctx : ParserRuleContext
  _buildParseTrees : Bool
  _syntaxErrors : Nat
  listenerCalls : List ListenerCall
deriving DecidableEq, Repr

/-- Modelled from the spec: a `Parser`, the public part together with the
protected member `std::vector<int> _precedenceStack` (Parser.h line 108), the
last element of the vector being the head of the list. -/
structure Parser extends ParserPublic where
  _precedenceStack : List Int
deriving DecidableEq, Repr

/-- Modelled from the spec: the error strategy `_errHandler`, an external
collaborator that "exposes recoverInline() -> Token (may return a synthesized
token with index −1) and reportMatch()/reportError() hooks". It acts on the
parser through its public interface; `recoverInline` either returns a token or
raises a recognition failure. -/
structure ANTLRErrorStrategy where
  reportMatch : ParserPublic → ParserPublic
  recoverInline : ParserPublic → Except RecognitionFailure (Token × ParserPublic)
  inErrorRecoveryMode : ParserPublic → Bool

/-- The outcome of a call of `match` or `matchWildcard`: the returned token or
the failure raised, the parser after the call and the calls made on the error
strategy, in order. -/
structure MatchRun where
  result : Except RecognitionFailure Token
  parser : Parser
  calls : List StrategyCall

/-- Modelled from the spec: `getCurrentToken()`, the lookahead token; past the
end of the buffer it is an end-of-input token. -/
def Parser.getCurrentToken (p : Parser) : Token :=
  p.tokens.getD p.index { type := -1, tokenIndex := p.index }

/-- Modelled from the spec: `ParserRuleContext::addErrorNode` on the current
context. -/
def Parser.addErrorNode (p : Parser) (t : Token) : Parser :=
  { p with _ctx := { p._ctx with children := p._ctx.children ++ [ParseTreeNode.errorNode t] } }

/-- Modelled from the spec: `ParserRuleContext::addChild(Token)` on the current
context. -/
def Parser.addChild (p : Parser) (t : Token) : Parser :=
  { p with _ctx := { p._ctx with children := p._ctx.children ++ [ParseTreeNode.terminal t] } }

/-- The parser with its public part replaced, as left by a call of the error
strategy. -/
def Parser.withPublic (p : Parser) (q : ParserPublic) : Parser :=
  { toParserPublic := q, _precedenceStack := p._precedenceStack }

/-- Modelled from the spec: `consume()`, "advance the token stream by one
position, and attach the consumed token to the current rule context as a
terminal node (normal mode) or an error node (while recovering), firing the
corresponding listener callback; return the consumed token". -/
def Parser.consume (h : ANTLRErrorStrategy) (p : Parser) : Token × Parser :=
  let o := p.getCurrentToken
  let p1 : Parser := { p with index := p.index + 1 }
  if h.inErrorRecoveryMode p1.toParserPublic then
    (o, { p1.addErrorNode o with
            listenerCalls := p1.listenerCalls ++ [ListenerCall.visitErrorNode o] })
  else
    (o, { p1.addChild o with
            listenerCalls := p1.listenerCalls ++ [ListenerCall.visitTerminal o] })

/-- The branch of `match` and `matchWildcard` taken when the lookahead does not
satisfy the requirement: "delegate to the recovery strategy's single-token
recovery; if it returns a token with index −1 (a synthesized error token) and
tree-building is enabled, attach that token as an error node rather than a
normal terminal". -/
def Parser.recoverInline (h : ANTLRErrorStrategy) (p : Parser) : MatchRun :=
  match h.recoverInline p.toParserPublic with
  | .error e => { result := .error e, parser := p, calls := [StrategyCall.recoverInline] }
  | .ok (t, q) =>
    let p1 := p.withPublic q
    { result := .ok t,
      parser := if p1._buildParseTrees = true ∧ t.tokenIndex = -1 then p1.addErrorNode t else p1,
      calls := [StrategyCall.recoverInline] }

/-- The branch of `match` and `matchWildcard` taken when the lookahead
satisfies the requirement: "notify the recovery strategy of a successful match,
consume the token, return it". -/
def Parser.acceptToken (h : ANTLRErrorStrategy) (p : Parser) (t : Token) : MatchRun :=
  let p1 := p.withPublic (h.reportMatch p.toParserPublic)
  { result := .ok t, parser := (p1.consume h).2, calls := [StrategyCall.reportMatch] }

/-- Modelled from the spec: `Parser::match(int ttype)` (declared at Parser.h
line 175; `match` is a reserved word here, hence the name). -/
def Parser.matchType (h : ANTLRErrorStrategy) (p : Parser) (ttype : Int) : MatchRun :=
  let t := p.getCurrentToken
  if t.type = ttype then p.acceptToken h t else p.recoverInline h

/-- Modelled from the spec: `Parser::matchWildcard()` (declared at Parser.h line
193): the lookahead matches when its type "has a value greater than 0". -/
def Parser.matchWildcard (h : ANTLRErrorStrategy) (p : Parser) : MatchRun :=
  let t := p.getCurrentToken
  if t.type > 0 then p.acceptToken h t else p.recoverInline h

/-- Modelled from the spec: `enterRecursionRule(localctx, state, ruleIndex,
precedence)`, "push the precedence onto the Precedence Stack and create an
initial context". -/
def Parser.enterRecursionRule (p : Parser) (localctx : ParserRuleContext) (state : Int)
    (ruleIndex : Int) (precedence : Int) : Parser :=
  { p with
    _ctx := { invokingState := state, ruleIndex := ruleIndex, children := localctx.children },
    _precedenceStack := precedence :: p._precedenceStack }

/-- Modelled from the spec: `pushNewRecursionContext(localctx, state,
ruleIndex)`, "a new context is created as the new parent of the previous
context (the previous context is re-parented underneath it)". -/
def Parser.pushNewRecursionContext (p : Parser) (localctx : ParserRuleContext) (state : Int)
    (ruleIndex : Int) : Parser :=
  let previous : ParserRuleContext := { p._ctx with invokingState := state }
  { p with
    _ctx := { invokingState := localctx.invokingState, ruleIndex := ruleIndex,
              children := if p._buildParseTrees
                then localctx.children ++ [ParseTreeNode.ruleNode previous.ruleIndex]
                else localctx.children } }

/-- Modelled from the spec: `unrollRecursionContexts(_parentctx)`, "Unrolling
pops the precedence and restores the pre-recursion context as current". -/
def Parser.unrollRecursionContexts (p : Parser) (_parentctx : ParserRuleContext) : Parser :=
  { p with _ctx := _parentctx, _precedenceStack := p._precedenceStack.tail }

/-- The statements of the body of a left-recursive rule between
`enterRecursionRule` and the matching `unrollRecursionContexts`: calls of the
scaffolding, nested activations of left-recursive rules, and the raising of a
recognition failure by a decision with no viable alternative. -/
inductive RuleBody where
  | done
  | matchType (ttype : Int) (rest : RuleBody)
  | matchWildcard (rest : RuleBody)
  | consume (rest : RuleBody)
  | pushNewRecursionContext (localctx : ParserRuleContext) (state : Int) (ruleIndex : Int)
      (rest : RuleBody)
  | recursionRule (localctx : ParserRuleContext) (state : Int) (ruleIndex : Int)
      (precedence : Int) (body : RuleBody) (rest : RuleBody)
  | raise (e : RecognitionFailure)

/-- The execution of a rule body: the parser at the end and the failure that
left the body, if any. An activation of a left-recursive rule is
`enterRecursionRule`, the body, and `unrollRecursionContexts` with the context
that was current before; the unrolling also runs when the body raises ("must
unwind on failure, not leak"), after which the failure propagates. -/
def RuleBody.exec (h : ANTLRErrorStrategy) : RuleBody → Parser → Parser × Option RecognitionFailure
  | RuleBody.done, p => (p, none)
  | RuleBody.matchType ttype rest, p =>
    match (p.matchType h ttype).result with
    | .error e => ((p.matchType h ttype).parser, some e)
    | .ok _ => rest.exec h (p.matchType h ttype).parser
  | RuleBody.matchWildcard rest, p =>
    match (p.matchWildcard h).result with
    | .error e => ((p.matchWildcard h).parser, some e)
    | .ok _ => rest.exec h (p.matchWildcard h).parser
  | RuleBody.consume rest, p => rest.exec h (p.consume h).2
  | RuleBody.pushNewRecursionContext localctx state ruleIndex rest, p =>
    rest.exec h (p.pushNewRecursionContext localctx state ruleIndex)
  | RuleBody.recursionRule localctx state ruleIndex precedence body rest, p =>
    let _parentctx := p._ctx
    let r := body.exec h (p.enterRecursionRule localctx state ruleIndex precedence)
    let p' := r.1.unrollRecursionContexts _parentctx
    match r.2 with
    | some e => (p', some e)
    | none => rest.exec h p'
  | RuleBody.raise e, p => (p, some e)

/-- A strategy that reports nothing, recovers by conjuring a token of type 9
with index −1, and is never in recovery mode. -/
def sampleStrategy : ANTLRErrorStrategy :=
  { reportMatch := fun q => q,
    recoverInline := fun q => .ok ({ type := 9, tokenIndex := -1 }, q),
    inErrorRecoveryMode := fun _ => false }

/-- A strategy whose inline recovery fails. -/
def failingStrategy : ANTLRErrorStrategy :=
  { reportMatch := fun q => q,
    recoverInline := fun _ => .error RecognitionFailure.inputMismatch,
    inErrorRecoveryMode := fun _ => false }

/-- A parser at the start of the tokens IDENTIFIER (type 4) and SEMI (type 9),
building parse trees, inside one left-recursive activation. -/
def sampleParser : Parser :=
  { tokens := [{ type := 4, tokenIndex := 0 }, { type := 9, tokenIndex := 1 }],
    index := 0,
    _ctx := { invokingState := -1, ruleIndex := 0, children := [] },
    _buildParseTrees := true,
    _syntaxErrors := 0,
    listenerCalls := [],
    _precedenceStack := [0] }

/-- A rule body with a nested left-recursive activation that fails inside. -/
def sampleBody : RuleBody :=
  RuleBody.matchType 4
    (RuleBody.recursionRule { invokingState := 3, ruleIndex := 1, children := [] } 3 1 2
      (RuleBody.matchType 4 (RuleBody.raise RecognitionFailure.noViableAlternative))
      RuleBody.done)


/-! ## Bit scans -/

theorem min_eq_coe_iff (b : BitSet) (m : Nat) :
    Finset.min b = (m : WithTop Nat) ↔ m ∈ b ∧ ∀ x ∈ b, m ≤ x := by
  constructor
  · intro h
    exact ⟨Finset.mem_of_min h, fun x hx => Finset.min_le_of_eq hx h⟩
  · rintro ⟨h1, h2⟩
    exact le_antisymm (Finset.min_le h1)
      (Finset.le_min (fun x hx => WithTop.coe_le_coe.2 (h2 x hx)))

theorem firstSetBit_eq_some_iff (b : BitSet) (m : Nat) :
    firstSetBit b = some m ↔ m ∈ b ∧ ∀ x ∈ b, m ≤ x := by
  unfold firstSetBit BitSet.size BitSet.test
  rw [List.find?_range_eq_some]
  constructor
  · rintro ⟨h1, _, h3⟩
    have hm : m ∈ b := by simpa using h1
    refine ⟨hm, fun x hx => ?_⟩
    by_contra hlt
    have := h3 x (by omega)
    simp [hx] at this
  · rintro ⟨h1, h2⟩
    refine ⟨by simpa using h1, ?_, ?_⟩
    · rw [List.mem_range]
      have : id m ≤ Finset.sup b id := Finset.le_sup h1
      simp only [id] at this
      omega
    · intro j hj
      simp only [Bool.not_eq_true', decide_eq_false_iff_not, Bool.not_eq_eq_eq_not, Bool.not_true]
      intro hjb
      have := h2 j hjb
      omega

theorem firstSetBit_eq_min (b : BitSet) (m : Nat) :
    firstSetBit b = some m ↔ Finset.min b = (m : WithTop Nat) := by
  rw [firstSetBit_eq_some_iff, min_eq_coe_iff]

theorem firstSetBit_of_nonempty (b : BitSet) (h : b.Nonempty) :
    firstSetBit b = some (Finset.min' b h) := by
  rw [firstSetBit_eq_some_iff]
  exact ⟨Finset.min'_mem b h, fun x hx => Finset.min'_le b x hx⟩

theorem firstSetBit_empty : firstSetBit ∅ = none := by decide

theorem firstSetBit_singleton (m : Nat) : firstSetBit {m} = some m := by
  rw [firstSetBit_eq_some_iff]
  simp

/-! ## The queries over lists of alternative subsets -/

theorem getSingleViableAltFrom_singleton (a : Bool) (inv : Int) (m : Nat) :
    ∀ altsets : List BitSet, (∀ s ∈ altsets, s.Nonempty) →
      getSingleViableAltFrom a inv altsets {m} =
        if ∀ s ∈ altsets, Finset.min s = (m : WithTop Nat) then .ok (m : Int) else .ok inv := by
  intro altsets
  induction altsets with
  | nil => intro _; simp [getSingleViableAltFrom, firstSetBit_singleton]
  | cons s rest ih =>
    intro hne
    have hs : s.Nonempty := hne s (List.mem_cons_self _ _)
    have hrest : ∀ t ∈ rest, t.Nonempty := fun t ht => hne t (List.mem_cons_of_mem _ ht)
    have hk := firstSetBit_of_nonempty s hs
    have hmin : Finset.min s = ((Finset.min' s hs : Nat) : WithTop Nat) :=
      (firstSetBit_eq_min s _).1 hk
    simp only [getSingleViableAltFrom, hk, BitSet.set, BitSet.count]
    by_cases hkm : Finset.min' s hs = m
    · rw [hkm] at hmin
      simp only [hkm, Finset.insert_eq_of_mem (Finset.mem_singleton_self m),
        Finset.card_singleton, gt_iff_lt, lt_self_iff_false, if_false, ih hrest,
        List.forall_mem_cons, hmin, true_and]
    · have hcard : (insert (Finset.min' s hs) ({m} : Finset Nat)).card = 2 := by
        rw [Finset.card_insert_of_not_mem (by simpa using hkm), Finset.card_singleton]
      have hne' : ¬ Finset.min s = (m : WithTop Nat) := by
        rw [hmin]
        intro h
        exact hkm (WithTop.coe_injective h)
      simp [hcard, hne']

theorem getSingleViableAlt_cons (a : Bool) (inv : Int) (s : BitSet) (rest : List BitSet)
    (hs : s.Nonempty) (hrest : ∀ t ∈ rest, t.Nonempty) :
    getSingleViableAlt a inv (s :: rest) =
      if ∀ t ∈ rest, Finset.min t = ((Finset.min' s hs : Nat) : WithTop Nat)
      then .ok ((Finset.min' s hs : Nat) : Int) else .ok inv := by
  have hk := firstSetBit_of_nonempty s hs
  unfold getSingleViableAlt
  simp only [getSingleViableAltFrom, hk, BitSet.set, BitSet.count]
  have : insert (Finset.min' s hs) (∅ : Finset Nat) = {Finset.min' s hs} := rfl
  rw [this]
  simp only [Finset.card_singleton, gt_iff_lt, lt_self_iff_false, if_false]
  exact getSingleViableAltFrom_singleton a inv _ rest hrest

theorem getAlts_foldl (altsets : List BitSet) (acc : BitSet) (x : Nat) :
    x ∈ altsets.foldl (fun all alts => all ∪ alts) acc ↔ x ∈ acc ∨ ∃ s ∈ altsets, x ∈ s := by
  induction altsets generalizing acc with
  | nil => simp
  | cons s rest ih =>
    simp only [List.foldl_cons, ih, Finset.mem_union, List.mem_cons, exists_eq_or_imp]
    tauto

theorem mem_getAlts (altsets : List BitSet) (x : Nat) :
    x ∈ getAlts altsets ↔ ∃ s ∈ altsets, x ∈ s := by
  unfold getAlts
  rw [getAlts_foldl]
  simp

theorem getAlts_eq_biUnion (altsets : List BitSet) :
    getAlts altsets = Finset.biUnion altsets.toFinset id := by
  ext x
  rw [mem_getAlts]
  simp

/-- C1: in every prediction mode, a configuration set all of whose
configurations are in rule-stop states makes
`hasSLLConflictTerminatingPrediction` return true. -/
theorem hasSLLConflictTerminatingPrediction_allRuleStop {Ctx Sem : Type} [LinearOrder Ctx]
    (mode : PredictionMode) (configs : ATNConfigSet Ctx Sem)
    (h : ∀ c ∈ configs.configs, c.state.isRuleStopState = true) :
    hasSLLConflictTerminatingPrediction mode configs = true := by
  have hall : allConfigsInRuleStopStates configs = true := by
    unfold allConfigsInRuleStopStates
    rw [List.all_eq_true]
    exact h
  unfold hasSLLConflictTerminatingPrediction
  rw [if_pos hall]

/-- Witness of C1 on a set of two rule-stop configurations with distinct
alternatives, in LL mode. -/
theorem hasSLLConflictTerminatingPrediction_allRuleStop_witness :
    (∀ c ∈ sampleRuleStop.configs, c.state.isRuleStopState = true) ∧
      hasSLLConflictTerminatingPrediction PredictionMode.LL sampleRuleStop = true :=
  ⟨by decide,
    hasSLLConflictTerminatingPrediction_allRuleStop PredictionMode.LL sampleRuleStop
      (by decide)⟩

/-- C4: on a non-empty list of non-empty subsets of positive alternatives (the
sentinel being no positive integer), `getSingleViableAlt` returns the sentinel
exactly when two subsets of the list have different minimal alternatives, and
otherwise returns the minimal alternative that all subsets share. -/
theorem getSingleViableAlt_sentinel_iff (assertsOn : Bool) (inv : Int)
    (altsets : List BitSet) (hinv : inv ≤ 0) (hne : altsets ≠ [])
    (hs : ∀ s ∈ altsets, s.Nonempty) (hpos : ∀ s ∈ altsets, ∀ x ∈ s, 0 < x) :
    (getSingleViableAlt assertsOn inv altsets = .ok inv ↔
        ∃ s ∈ altsets, ∃ t ∈ altsets, Finset.min s ≠ Finset.min t) ∧
    ((¬ ∃ s ∈ altsets, ∃ t ∈ altsets, Finset.min s ≠ Finset.min t) →
        ∃ m : Nat, (∀ s ∈ altsets, Finset.min s = (m : WithTop Nat)) ∧
          getSingleViableAlt assertsOn inv altsets = .ok (m : Int)) := by
  cases altsets with
  | nil => exact absurd rfl hne
  | cons s rest =>
    have hs0 : s.Nonempty := hs s (List.mem_cons_self _ _)
    have hrest : ∀ t ∈ rest, t.Nonempty := fun t ht => hs t (List.mem_cons_of_mem _ ht)
    have hmin : Finset.min s = ((Finset.min' s hs0 : Nat) : WithTop Nat) :=
      (firstSetBit_eq_min s _).1 (firstSetBit_of_nonempty s hs0)
    have hmpos : 0 < Finset.min' s hs0 :=
      hpos s (List.mem_cons_self _ _) _ (Finset.min'_mem s hs0)
    rw [getSingleViableAlt_cons assertsOn inv s rest hs0 hrest]
    by_cases hall : ∀ t ∈ rest, Finset.min t = ((Finset.min' s hs0 : Nat) : WithTop Nat)
    · have hall' : ∀ t ∈ s :: rest, Finset.min t = ((Finset.min' s hs0 : Nat) : WithTop Nat) := by
        intro t ht
        rcases List.mem_cons.1 ht with rfl | ht
        · exact hmin
        · exact hall t ht
      have hno : ¬ ∃ u ∈ s :: rest, ∃ t ∈ s :: rest, Finset.min u ≠ Finset.min t := by
        rintro ⟨u, hu, t, ht, hut⟩
        exact hut ((hall' u hu).trans (hall' t ht).symm)
      rw [if_pos hall]
      refine ⟨⟨fun h => ?_, fun h => absurd h hno⟩, fun _ => ⟨_, hall', rfl⟩⟩
      have h' : ((Finset.min' s hs0 : Nat) : Int) = inv := by injection h
      omega
    · rw [if_neg hall]
      have hyes : ∃ u ∈ s :: rest, ∃ t ∈ s :: rest, Finset.min u ≠ Finset.min t := by
        by_contra hcon
        apply hall
        intro t ht
        by_contra hne'
        exact hcon ⟨t, List.mem_cons_of_mem _ ht, s, List.mem_cons_self _ _,
          fun h => hne' (h.trans hmin)⟩
      exact ⟨⟨fun _ => hyes, fun _ => rfl⟩, fun h => absurd hyes h⟩

/-- Witness of C4 on the buckets {1, 2} and {2, 3}, whose minimal alternatives
differ, with sentinel 0. -/
theorem getSingleViableAlt_sentinel_iff_witness :
    (getSingleViableAlt true 0 [{1, 2}, {2, 3}] = .ok 0 ↔
        ∃ s ∈ ([{1, 2}, {2, 3}] : List BitSet), ∃ t ∈ ([{1, 2}, {2, 3}] : List BitSet),
          Finset.min s ≠ Finset.min t) ∧
    ((¬ ∃ s ∈ ([{1, 2}, {2, 3}] : List BitSet), ∃ t ∈ ([{1, 2}, {2, 3}] : List BitSet),
          Finset.min s ≠ Finset.min t) →
        ∃ m : Nat, (∀ s ∈ ([{1, 2}, {2, 3}] : List BitSet), Finset.min s = (m : WithTop Nat)) ∧
          getSingleViableAlt true 0 [{1, 2}, {2, 3}] = .ok (m : Int)) :=
  getSingleViableAlt_sentinel_iff true 0 [{1, 2}, {2, 3}] (by decide) (by decide)
    (by decide) (by decide)

/-- C5: on a non-empty list of subsets that are all the same non-empty set `S`,
`getSingleViableAlt` returns the lowest alternative of `S`. -/
theorem getSingleViableAlt_identical (assertsOn : Bool) (inv : Int) (S : BitSet)
    (hS : S.Nonempty) (altsets : List BitSet) (hne : altsets ≠ [])
    (hall : ∀ s ∈ altsets, s = S) :
    getSingleViableAlt assertsOn inv altsets = .ok ((Finset.min' S hS : Nat) : Int) := by
  cases altsets with
  | nil => exact absurd rfl hne
  | cons s rest =>
    have hsS : s = S := hall s (List.mem_cons_self _ _)
    subst hsS
    have hrest : ∀ t ∈ rest, t.Nonempty := by
      intro t ht
      rw [hall t (List.mem_cons_of_mem _ ht)]
      exact hS
    rw [getSingleViableAlt_cons assertsOn inv s rest hS hrest, if_pos]
    intro t ht
    rw [hall t (List.mem_cons_of_mem _ ht)]
    exact (firstSetBit_eq_min s _).1 (firstSetBit_of_nonempty s hS)

/-- Witness of C5 on three copies of the bucket {2, 4}. -/
theorem getSingleViableAlt_identical_witness :
    getSingleViableAlt true 0 [{2, 4}, {2, 4}, {2, 4}] =
      .ok ((Finset.min' ({2, 4} : BitSet) (by decide) : Nat) : Int) :=
  getSingleViableAlt_identical true 0 {2, 4} (by decide) [{2, 4}, {2, 4}, {2, 4}]
    (by decide) (by decide)

/-- C6: `getUniqueAlt` returns the single member of the union of all subsets
when that union has exactly one member, and the sentinel when the union is
empty or has two or more members. -/
theorem getUniqueAlt_spec (inv : Int) (altsets : List BitSet) :
    (∃ a : Nat, Finset.biUnion altsets.toFinset id = {a} ∧
        getUniqueAlt inv altsets = (a : Int)) ∨
    (((Finset.biUnion altsets.toFinset id).card = 0 ∨
        2 ≤ (Finset.biUnion altsets.toFinset id).card) ∧
      getUniqueAlt inv altsets = inv) := by
  rw [← getAlts_eq_biUnion]
  by_cases hcard : (getAlts altsets).card = 1
  · left
    obtain ⟨a, ha⟩ := Finset.card_eq_one.1 hcard
    refine ⟨a, ha, ?_⟩
    simp only [getUniqueAlt, BitSet.count, ha, Finset.card_singleton, if_true,
      firstSetBit_singleton]
  · right
    refine ⟨by omega, ?_⟩
    simp only [getUniqueAlt, BitSet.count, hcard, if_false]

/-- C9: `allSubsetsEqual` returns true on the empty list of alternative
subsets. -/
theorem allSubsetsEqual_nil : allSubsetsEqual [] = true := rfl

/-- C10: `allSubsetsEqual` returns true exactly when every two subsets of the
list are the same alternative set. -/
theorem allSubsetsEqual_iff (altsets : List BitSet) :
    allSubsetsEqual altsets = true ↔ ∀ s ∈ altsets, ∀ t ∈ altsets, s = t := by
  cases altsets with
  | nil => simp [allSubsetsEqual]
  | cons first rest =>
    simp only [allSubsetsEqual, List.all_eq_true, Bool.not_eq_true', decide_eq_false_iff_not,
      ne_eq, not_not]
    constructor
    · intro h s hs t ht
      rw [h s hs, h t ht]
    · intro h s hs
      exact h s hs first (List.mem_cons_self _ _)

/-! ## The ordered map behind the two groupings -/

theorem mem_mapSetBit_cases {E K : Type} [LinearOrder K] (key : E → K) (e : E) (bit : Nat)
    (m : List (E × BitSet)) (p : E × BitSet) (hp : p ∈ mapSetBit key e bit m) :
    p ∈ m ∨ (∃ v, (p.1, v) ∈ m ∧ key p.1 = key e ∧ p.2 = BitSet.set v bit) ∨
      p = (e, BitSet.set ∅ bit) := by
  induction m with
  | nil =>
    simp only [mapSetBit, List.mem_singleton] at hp
    exact Or.inr (Or.inr hp)
  | cons hd rest ih =>
    obtain ⟨e', v⟩ := hd
    simp only [mapSetBit] at hp
    split_ifs at hp with h1 h2
    · rcases List.mem_cons.1 hp with rfl | hp'
      · exact Or.inr (Or.inr rfl)
      · exact Or.inl hp'
    · rcases List.mem_cons.1 hp with rfl | hp'
      · exact Or.inl (List.mem_cons_self _ _)
      · rcases ih hp' with h | ⟨w, hw, hk, hv⟩ | h
        · exact Or.inl (List.mem_cons_of_mem _ h)
        · exact Or.inr (Or.inl ⟨w, List.mem_cons_of_mem _ hw, hk, hv⟩)
        · exact Or.inr (Or.inr h)
    · rcases List.mem_cons.1 hp with rfl | hp'
      · refine Or.inr (Or.inl ⟨v, List.mem_cons_self _ _, ?_, rfl⟩)
        exact le_antisymm (not_lt.1 h1) (not_lt.1 h2)
      · exact Or.inl (List.mem_cons_of_mem _ hp')

theorem mem_mapSetBit_of_mem {E K : Type} [LinearOrder K] (key : E → K) (e : E) (bit : Nat)
    (m : List (E × BitSet)) (p : E × BitSet) (hp : p ∈ m) :
    p ∈ mapSetBit key e bit m ∨
      (key p.1 = key e ∧ (p.1, BitSet.set p.2 bit) ∈ mapSetBit key e bit m) := by
  induction m with
  | nil => cases hp
  | cons hd rest ih =>
    obtain ⟨e', v⟩ := hd
    simp only [mapSetBit]
    split_ifs with h1 h2
    · exact Or.inl (List.mem_cons_of_mem _ hp)
    · rcases List.mem_cons.1 hp with rfl | hp'
      · exact Or.inl (List.mem_cons_self _ _)
      · rcases ih hp' with h | ⟨hk, h⟩
        · exact Or.inl (List.mem_cons_of_mem _ h)
        · exact Or.inr ⟨hk, List.mem_cons_of_mem _ h⟩
    · rcases List.mem_cons.1 hp with rfl | hp'
      · exact Or.inr ⟨le_antisymm (not_lt.1 h1) (not_lt.1 h2), List.mem_cons_self _ _⟩
      · exact Or.inl (List.mem_cons_of_mem _ hp')

theorem exists_mem_mapSetBit {E K : Type} [LinearOrder K] (key : E → K) (e : E) (bit : Nat)
    (m : List (E × BitSet)) :
    ∃ p ∈ mapSetBit key e bit m, key p.1 = key e ∧ bit ∈ p.2 := by
  induction m with
  | nil => exact ⟨(e, BitSet.set ∅ bit), by simp [mapSetBit], rfl, by simp [BitSet.set]⟩
  | cons hd rest ih =>
    obtain ⟨e', v⟩ := hd
    simp only [mapSetBit]
    split_ifs with h1 h2
    · exact ⟨(e, BitSet.set ∅ bit), List.mem_cons_self _ _, rfl, by simp [BitSet.set]⟩
    · obtain ⟨p, hp, hk, hb⟩ := ih
      exact ⟨p, List.mem_cons_of_mem _ hp, hk, hb⟩
    · exact ⟨(e', BitSet.set v bit), List.mem_cons_self _ _,
        le_antisymm (not_lt.1 h1) (not_lt.1 h2), by simp [BitSet.set]⟩

theorem pairwise_mapSetBit {E K : Type} [LinearOrder K] (key : E → K) (e : E) (bit : Nat)
    (m : List (E × BitSet)) (hm : m.Pairwise (fun p q => key p.1 < key q.1)) :
    (mapSetBit key e bit m).Pairwise (fun p q => key p.1 < key q.1) := by
  induction m with
  | nil => simp [mapSetBit]
  | cons hd rest ih =>
    obtain ⟨e', v⟩ := hd
    rw [List.pairwise_cons] at hm
    obtain ⟨hhd, hrest⟩ := hm
    simp only [mapSetBit]
    split_ifs with h1 h2
    · refine List.pairwise_cons.2 ⟨?_, List.pairwise_cons.2 ⟨hhd, hrest⟩⟩
      intro q hq
      rcases List.mem_cons.1 hq with rfl | hq'
      · exact h1
      · exact lt_trans h1 (hhd q hq')
    · refine List.pairwise_cons.2 ⟨?_, ih hrest⟩
      intro q hq
      rcases mem_mapSetBit_cases key e bit rest q hq with h | ⟨w, _, hk, _⟩ | h
      · exact hhd q h
      · simpa [hk] using h2
      · simpa [h] using h2
    · exact List.pairwise_cons.2 ⟨hhd, hrest⟩

/-- One round of a grouping loop keeps the map sorted by key, its buckets
non-empty, and its buckets equal to the alternatives seen so far per key. -/
theorem mapSetBit_step {C E K : Type} [LinearOrder K] (key : E → K) (proj : C → E)
    (alt : C → Nat) (cs : List C) (c : C) (m : List (E × BitSet))
    (h : m.Pairwise (fun p q => key p.1 < key q.1) ∧
      (∀ p ∈ m, ∀ a ∈ p.2, ∃ d ∈ cs, key (proj d) = key p.1 ∧ alt d = a) ∧
      (∀ d ∈ cs, ∃ p ∈ m, key p.1 = key (proj d) ∧ alt d ∈ p.2) ∧
      (∀ p ∈ m, p.2.Nonempty)) :
    (mapSetBit key (proj c) (alt c) m).Pairwise (fun p q => key p.1 < key q.1) ∧
      (∀ p ∈ mapSetBit key (proj c) (alt c) m, ∀ a ∈ p.2,
        ∃ d ∈ cs ++ [c], key (proj d) = key p.1 ∧ alt d = a) ∧
      (∀ d ∈ cs ++ [c], ∃ p ∈ mapSetBit key (proj c) (alt c) m,
        key p.1 = key (proj d) ∧ alt d ∈ p.2) ∧
      (∀ p ∈ mapSetBit key (proj c) (alt c) m, p.2.Nonempty) := by
  obtain ⟨hsorted, hsound, hcompl, hnonempty⟩ := h
  refine ⟨pairwise_mapSetBit key _ _ m hsorted, ?_, ?_, ?_⟩
  · intro p hp a ha
    rcases mem_mapSetBit_cases key _ _ m p hp with h | ⟨v, hv, hk, hpv⟩ | h
    · obtain ⟨d, hd, hkd, had⟩ := hsound p h a ha
      exact ⟨d, List.mem_append_left _ hd, hkd, had⟩
    · rw [hpv, BitSet.set, Finset.mem_insert] at ha
      rcases ha with rfl | ha
      · exact ⟨c, by simp, hk.symm, rfl⟩
      · obtain ⟨d, hd, hkd, had⟩ := hsound (p.1, v) hv a ha
        exact ⟨d, List.mem_append_left _ hd, hkd, had⟩
    · subst h
      simp only [BitSet.set, Finset.mem_insert, Finset.not_mem_empty, or_false] at ha
      exact ⟨c, by simp, rfl, ha.symm⟩
  · intro d hd
    rcases List.mem_append.1 hd with hd | hd
    · obtain ⟨p, hp, hk, ha⟩ := hcompl d hd
      rcases mem_mapSetBit_of_mem key (proj c) (alt c) m p hp with h | ⟨_, h⟩
      · exact ⟨p, h, hk, ha⟩
      · exact ⟨_, h, hk, by simp [BitSet.set, ha]⟩
    · rw [List.mem_singleton] at hd
      subst hd
      exact exists_mem_mapSetBit key (proj d) (alt d) m
  · intro p hp
    rcases mem_mapSetBit_cases key _ _ m p hp with h | ⟨v, _, _, hpv⟩ | h
    · exact hnonempty p h
    · rw [hpv]
      exact ⟨_, Finset.mem_insert_self _ _⟩
    · rw [h]
      exact ⟨_, Finset.mem_insert_self _ _⟩

/-- The grouping loop from a map that groups `cs0` yields a map that groups
`cs0 ++ cs`. -/
theorem foldl_mapSetBit_inv {C E K : Type} [LinearOrder K] (key : E → K) (proj : C → E)
    (alt : C → Nat) (cs cs0 : List C) (m : List (E × BitSet))
    (h : m.Pairwise (fun p q => key p.1 < key q.1) ∧
      (∀ p ∈ m, ∀ a ∈ p.2, ∃ d ∈ cs0, key (proj d) = key p.1 ∧ alt d = a) ∧
      (∀ d ∈ cs0, ∃ p ∈ m, key p.1 = key (proj d) ∧ alt d ∈ p.2) ∧
      (∀ p ∈ m, p.2.Nonempty)) :
    (cs.foldl (fun m c => mapSetBit key (proj c) (alt c) m) m).Pairwise
        (fun p q => key p.1 < key q.1) ∧
      (∀ p ∈ cs.foldl (fun m c => mapSetBit key (proj c) (alt c) m) m, ∀ a ∈ p.2,
        ∃ d ∈ cs0 ++ cs, key (proj d) = key p.1 ∧ alt d = a) ∧
      (∀ d ∈ cs0 ++ cs, ∃ p ∈ cs.foldl (fun m c => mapSetBit key (proj c) (alt c) m) m,
        key p.1 = key (proj d) ∧ alt d ∈ p.2) ∧
      (∀ p ∈ cs.foldl (fun m c => mapSetBit key (proj c) (alt c) m) m, p.2.Nonempty) := by
  induction cs generalizing cs0 m with
  | nil => simpa using h
  | cons c rest ih =>
    have hstep := mapSetBit_step key proj alt cs0 c m h
    have := ih (cs0 ++ [c]) (mapSetBit key (proj c) (alt c) m) hstep
    simpa [List.append_assoc] using this

theorem groupBy_inv {C E K : Type} [LinearOrder K] (key : E → K) (proj : C → E)
    (alt : C → Nat) (cs : List C) :
    (cs.foldl (fun m c => mapSetBit key (proj c) (alt c) m) []).Pairwise
        (fun p q => key p.1 < key q.1) ∧
      (∀ p ∈ cs.foldl (fun m c => mapSetBit key (proj c) (alt c) m) [], ∀ a ∈ p.2,
        ∃ d ∈ cs, key (proj d) = key p.1 ∧ alt d = a) ∧
      (∀ d ∈ cs, ∃ p ∈ cs.foldl (fun m c => mapSetBit key (proj c) (alt c) m) [],
        key p.1 = key (proj d) ∧ alt d ∈ p.2) ∧
      (∀ p ∈ cs.foldl (fun m c => mapSetBit key (proj c) (alt c) m) [], p.2.Nonempty) := by
  have := foldl_mapSetBit_inv key proj alt cs [] []
    ⟨List.Pairwise.nil, by simp, by simp, by simp⟩
  simpa using this

theorem eq_of_key_eq {E K : Type} [LinearOrder K] (key : E → K) (m : List (E × BitSet))
    (hm : m.Pairwise (fun p q => key p.1 < key q.1)) (p q : E × BitSet)
    (hp : p ∈ m) (hq : q ∈ m) (hk : key p.1 = key q.1) : p = q := by
  induction m with
  | nil => cases hp
  | cons hd rest ih =>
    rw [List.pairwise_cons] at hm
    obtain ⟨hhd, hrest⟩ := hm
    rcases List.mem_cons.1 hp with rfl | hp' <;> rcases List.mem_cons.1 hq with rfl | hq'
    · rfl
    · exact absurd hk (ne_of_lt (hhd q hq'))
    · exact absurd hk.symm (ne_of_lt (hhd p hp'))
    · exact ih hrest hp' hq'

theorem groupBy_mem_iff {C E K : Type} [LinearOrder K] (key : E → K) (proj : C → E)
    (alt : C → Nat) (cs : List C) (p : E × BitSet)
    (hp : p ∈ cs.foldl (fun m c => mapSetBit key (proj c) (alt c) m) []) (a : Nat) :
    a ∈ p.2 ↔ ∃ d ∈ cs, key (proj d) = key p.1 ∧ alt d = a := by
  obtain ⟨hsorted, hsound, hcompl, _⟩ := groupBy_inv key proj alt cs
  constructor
  · exact hsound p hp a
  · rintro ⟨d, hd, hk, rfl⟩
    obtain ⟨q, hq, hkq, haq⟩ := hcompl d hd
    have : q = p := eq_of_key_eq key _ hsorted q p hq hp (hkq.trans hk)
    rw [← this]
    exact haq

theorem groupBy_key_mem {C E K : Type} [LinearOrder K] (key : E → K) (proj : C → E)
    (alt : C → Nat) (cs : List C) (p : E × BitSet)
    (hp : p ∈ cs.foldl (fun m c => mapSetBit key (proj c) (alt c) m) []) :
    ∃ d ∈ cs, key (proj d) = key p.1 := by
  obtain ⟨_, hsound, _, hnonempty⟩ := groupBy_inv key proj alt cs
  obtain ⟨a, ha⟩ := hnonempty p hp
  obtain ⟨d, hd, hk, _⟩ := hsound p hp a ha
  exact ⟨d, hd, hk⟩

theorem conflictKey_eq_iff {Ctx Sem : Type} (c d : ATNConfig Ctx Sem) :
    conflictKey c = conflictKey d ↔
      (c.state.stateNumber, c.context) = (d.state.stateNumber, d.context) := by
  unfold conflictKey
  exact toLex_inj

section Groupings

variable {Ctx Sem : Type} [LinearOrder Ctx]

theorem mem_configToAlts_iff (configs : ATNConfigSet Ctx Sem) (p : ATNConfig Ctx Sem × BitSet)
    (hp : p ∈ configToAlts configs) (a : Nat) :
    a ∈ p.2 ↔ ∃ c ∈ configs.configs, conflictKey c = conflictKey p.1 ∧ c.alt = a :=
  groupBy_mem_iff conflictKey id ATNConfig.alt configs.configs p hp a

theorem mem_getAlts_conflicting (configs : ATNConfigSet Ctx Sem) (x : Nat) :
    x ∈ getAlts (getConflictingAltSubsets configs) ↔ ∃ c ∈ configs.configs, c.alt = x := by
  obtain ⟨_, hsound, hcompl, _⟩ :=
    groupBy_inv conflictKey id ATNConfig.alt configs.configs
  rw [mem_getAlts]
  unfold getConflictingAltSubsets configToAlts
  constructor
  · rintro ⟨s, hs, hx⟩
    obtain ⟨p, hp, rfl⟩ := List.mem_map.1 hs
    obtain ⟨d, hd, _, had⟩ := hsound p hp x hx
    exact ⟨d, hd, had⟩
  · rintro ⟨c, hc, rfl⟩
    obtain ⟨p, hp, _, hap⟩ := hcompl c hc
    exact ⟨p.2, List.mem_map.2 ⟨p, hp, rfl⟩, hap⟩

theorem hasConflictingAltSet_single_alternative (configs : ATNConfigSet Ctx Sem) (a : Nat)
    (hall : ∀ c ∈ configs.configs, c.alt = a) :
    hasConflictingAltSet (getConflictingAltSubsets configs) = false := by
  obtain ⟨_, hsound, _, _⟩ := groupBy_inv conflictKey id ATNConfig.alt configs.configs
  rw [Bool.eq_false_iff]
  intro h
  unfold hasConflictingAltSet at h
  rw [List.any_eq_true] at h
  obtain ⟨s, hs, hcount⟩ := h
  unfold getConflictingAltSubsets configToAlts at hs
  obtain ⟨p, hp, rfl⟩ := List.mem_map.1 hs
  have hsub : p.2 ⊆ {a} := by
    intro x hx
    obtain ⟨d, hd, _, had⟩ := hsound p hp x hx
    rw [Finset.mem_singleton, ← had]
    exact hall d hd
  have hle : p.2.card ≤ 1 := by
    have := Finset.card_le_card hsub
    simpa using this
  simp only [BitSet.count, gt_iff_lt, decide_eq_true_eq] at hcount
  omega

theorem mem_dupWithoutPredicates_fold (cs : List (ATNConfig Ctx Sem))
    (acc : ATNConfigSet Ctx Sem) (d : ATNConfig Ctx Sem)
    (hd : d ∈ (cs.foldl (fun dup config => dup.add (config.withSemanticContext none))
      acc).configs) :
    d ∈ acc.configs ∨ ∃ c ∈ cs, d = c.withSemanticContext none := by
  induction cs generalizing acc with
  | nil => exact Or.inl hd
  | cons c rest ih =>
    rcases ih (acc.add (c.withSemanticContext none)) hd with h | ⟨c', hc', h⟩
    · unfold ATNConfigSet.add at h
      simp only at h
      split_ifs at h
      · exact Or.inl h
      · rcases List.mem_append.1 h with h | h
        · exact Or.inl h
        · exact Or.inr ⟨c, List.mem_cons_self _ _, List.mem_singleton.1 h⟩
    · exact Or.inr ⟨c', List.mem_cons_of_mem _ hc', h⟩

theorem mem_dupWithoutPredicates (configs : ATNConfigSet Ctx Sem) (d : ATNConfig Ctx Sem)
    (hd : d ∈ (dupWithoutPredicates configs).configs) :
    ∃ c ∈ configs.configs, d = c.withSemanticContext none := by
  rcases mem_dupWithoutPredicates_fold configs.configs ATNConfigSet.empty d hd with h | h
  · cases h
  · exact h

theorem mem_analysedConfigs_alt (mode : PredictionMode) (configs : ATNConfigSet Ctx Sem)
    (d : ATNConfig Ctx Sem) (hd : d ∈ (analysedConfigs mode configs).configs) :
    ∃ c ∈ configs.configs, d.alt = c.alt := by
  unfold analysedConfigs at hd
  split_ifs at hd
  · obtain ⟨c, hc, rfl⟩ := mem_dupWithoutPredicates configs d hd
    exact ⟨c, hc, rfl⟩
  · exact ⟨d, hd, rfl⟩
  · exact ⟨d, hd, rfl⟩

end Groupings

/-! ## Claims on the groupings and on the termination test -/

/-- C2: when some configuration is not in a rule-stop state,
`hasSLLConflictTerminatingPrediction` returns
`hasConflictingAltSet(getConflictingAltSubsets(cs')) AND NOT (some state's alt-set in
getStateToAltMap(cs') has cardinality one)`, where `cs'` is the predicate-stripped
duplicate in SLL mode with `hasSemanticContext` and the given set otherwise. -/
theorem hasSLLConflictTerminatingPrediction_heuristic {Ctx Sem : Type} [LinearOrder Ctx]
    (mode : PredictionMode) (configs : ATNConfigSet Ctx Sem)
    (h : ∃ c ∈ configs.configs, c.state.isRuleStopState = false) :
    hasSLLConflictTerminatingPrediction mode configs =
      (hasConflictingAltSet (getConflictingAltSubsets
          (if mode = PredictionMode.SLL ∧ configs.hasSemanticContext = true
            then dupWithoutPredicates configs else configs)) &&
        !decide (∃ e ∈ getStateToAltMap
          (if mode = PredictionMode.SLL ∧ configs.hasSemanticContext = true
            then dupWithoutPredicates configs else configs), Finset.card e.2 = 1)) := by
  have hall : ¬ allConfigsInRuleStopStates configs = true := by
    unfold allConfigsInRuleStopStates
    rw [List.all_eq_true]
    intro hcon
    obtain ⟨c, hc, hfalse⟩ := h
    rw [hcon c hc] at hfalse
    cases hfalse
  have hcs : analysedConfigs mode configs =
      (if mode = PredictionMode.SLL ∧ configs.hasSemanticContext = true
        then dupWithoutPredicates configs else configs) := by
    unfold analysedConfigs
    by_cases h1 : mode = PredictionMode.SLL <;>
      by_cases h2 : configs.hasSemanticContext = true <;> simp [h1, h2]
  unfold hasSLLConflictTerminatingPrediction
  rw [if_neg hall]
  simp only [hcs]
  congr 2
  unfold hasStateAssociatedWithOneAlt
  rw [Bool.eq_iff_iff]
  simp [BitSet.count]

/-- Witness of C2: SLL mode on a set with predicates, one state, one context and
the alternatives 1 and 2. -/
theorem hasSLLConflictTerminatingPrediction_heuristic_witness :
    (∃ c ∈ samplePredicated.configs, c.state.isRuleStopState = false) ∧
    hasSLLConflictTerminatingPrediction PredictionMode.SLL samplePredicated =
      (hasConflictingAltSet (getConflictingAltSubsets
          (if PredictionMode.SLL = PredictionMode.SLL ∧
              samplePredicated.hasSemanticContext = true
            then dupWithoutPredicates samplePredicated else samplePredicated)) &&
        !decide (∃ e ∈ getStateToAltMap
          (if PredictionMode.SLL = PredictionMode.SLL ∧
              samplePredicated.hasSemanticContext = true
            then dupWithoutPredicates samplePredicated else samplePredicated),
          Finset.card e.2 = 1)) :=
  ⟨by decide,
    hasSLLConflictTerminatingPrediction_heuristic PredictionMode.SLL samplePredicated
      (by decide)⟩

/-- C3: `getConflictingAltSubsets` returns one alternative subset per distinct
conflict key (state number, invocation context) occurring in the set, and that
subset is the set of the alternatives of the configurations having that key. -/
theorem getConflictingAltSubsets_buckets {Ctx Sem : Type} [LinearOrder Ctx]
    (configs : ATNConfigSet Ctx Sem) :
    ∃ keys : List (Int × Ctx), keys.Nodup ∧
      (∀ k, k ∈ keys ↔ ∃ c ∈ configs.configs, (c.state.stateNumber, c.context) = k) ∧
      getConflictingAltSubsets configs =
        keys.map (fun k => ((configs.configs.filter
          (fun c => decide ((c.state.stateNumber, c.context) = k))).map ATNConfig.alt).toFinset) := by
  obtain ⟨hsorted, hsound, hcompl, hnonempty⟩ :=
    groupBy_inv conflictKey id ATNConfig.alt configs.configs
  refine ⟨(configToAlts configs).map (fun p => (p.1.state.stateNumber, p.1.context)), ?_, ?_, ?_⟩
  · unfold List.Nodup
    rw [List.pairwise_map]
    refine List.Pairwise.imp ?_ hsorted
    intro p q hlt heq
    exact ne_of_lt hlt ((conflictKey_eq_iff p.1 q.1).2 heq)
  · intro k
    rw [List.mem_map]
    constructor
    · rintro ⟨p, hp, rfl⟩
      obtain ⟨d, hd, hk⟩ := groupBy_key_mem conflictKey id ATNConfig.alt configs.configs p hp
      exact ⟨d, hd, (conflictKey_eq_iff d p.1).1 hk⟩
    · rintro ⟨c, hc, rfl⟩
      obtain ⟨p, hp, hk, _⟩ := hcompl c hc
      exact ⟨p, hp, (conflictKey_eq_iff p.1 c).1 hk⟩
  · unfold getConflictingAltSubsets
    rw [List.map_map]
    apply List.map_congr_left
    intro p hp
    ext a
    rw [mem_configToAlts_iff configs p hp a]
    simp only [Function.comp_apply, List.mem_toFinset, List.mem_map, List.mem_filter,
      decide_eq_true_eq]
    constructor
    · rintro ⟨c, hc, hk, hca⟩
      exact ⟨c, ⟨hc, (conflictKey_eq_iff c p.1).1 hk⟩, hca⟩
    · rintro ⟨c, ⟨hc, hk⟩, hca⟩
      exact ⟨c, hc, (conflictKey_eq_iff c p.1).2 hk, hca⟩

/-- C7: on a non-empty configuration set all of whose configurations carry the
alternative `a`, `getUniqueAlt(getConflictingAltSubsets(configs))` returns `a`. -/
theorem getUniqueAlt_single_alternative {Ctx Sem : Type} [LinearOrder Ctx] (inv : Int)
    (configs : ATNConfigSet Ctx Sem) (a : Nat) (hne : configs.configs ≠ [])
    (hall : ∀ c ∈ configs.configs, c.alt = a) :
    getUniqueAlt inv (getConflictingAltSubsets configs) = (a : Int) := by
  have hU : getAlts (getConflictingAltSubsets configs) = {a} := by
    ext x
    rw [mem_getAlts_conflicting, Finset.mem_singleton]
    constructor
    · rintro ⟨c, hc, rfl⟩
      exact hall c hc
    · rintro rfl
      obtain ⟨c, hc⟩ := List.exists_mem_of_ne_nil _ hne
      exact ⟨c, hc, hall c hc⟩
  simp only [getUniqueAlt, hU, BitSet.count, Finset.card_singleton, if_true,
    firstSetBit_singleton]

/-- Witness of C7 on two configurations of alternative 3 in different states. -/
theorem getUniqueAlt_single_alternative_witness :
    getUniqueAlt 0 (getConflictingAltSubsets sampleOneAlt) = ((3 : Nat) : Int) :=
  getUniqueAlt_single_alternative 0 sampleOneAlt 3 (by decide) (by decide)

/-- C8: when all configurations carry the same alternative, no bucket of
`getConflictingAltSubsets` conflicts, and in every mode
`hasSLLConflictTerminatingPrediction` returns false unless every configuration is
in a rule-stop state. -/
theorem no_conflict_single_alternative {Ctx Sem : Type} [LinearOrder Ctx]
    (configs : ATNConfigSet Ctx Sem) (a : Nat) (hall : ∀ c ∈ configs.configs, c.alt = a) :
    hasConflictingAltSet (getConflictingAltSubsets configs) = false ∧
      ∀ mode : PredictionMode,
        (¬ ∀ c ∈ configs.configs, c.state.isRuleStopState = true) →
          hasSLLConflictTerminatingPrediction mode configs = false := by
  refine ⟨hasConflictingAltSet_single_alternative configs a hall, ?_⟩
  intro mode hstop
  have hnot : ¬ allConfigsInRuleStopStates configs = true := by
    unfold allConfigsInRuleStopStates
    rw [List.all_eq_true]
    exact hstop
  have hall' : ∀ d ∈ (analysedConfigs mode configs).configs, d.alt = a := by
    intro d hd
    obtain ⟨c, hc, hdc⟩ := mem_analysedConfigs_alt mode configs d hd
    rw [hdc]
    exact hall c hc
  unfold hasSLLConflictTerminatingPrediction
  rw [if_neg hnot]
  simp only [hasConflictingAltSet_single_alternative _ a hall', Bool.false_and]

/-- Witness of C8 on two configurations of alternative 3 in different states,
none of them a rule-stop state. -/
theorem no_conflict_single_alternative_witness :
    hasConflictingAltSet (getConflictingAltSubsets sampleOneAlt) = false ∧
      ∀ mode : PredictionMode,
        (¬ ∀ c ∈ sampleOneAlt.configs, c.state.isRuleStopState = true) →
          hasSLLConflictTerminatingPrediction mode sampleOneAlt = false :=
  no_conflict_single_alternative sampleOneAlt 3 (by decide)

/-! ## Scenarios over the buckets of a configuration set -/

theorem configToAlts_key_mem {Ctx Sem : Type} [LinearOrder Ctx] (configs : ATNConfigSet Ctx Sem)
    (p : ATNConfig Ctx Sem × BitSet) (hp : p ∈ configToAlts configs) :
    ∃ c ∈ configs.configs, conflictKey c = conflictKey p.1 :=
  groupBy_key_mem conflictKey id ATNConfig.alt configs.configs p hp

theorem configToAlts_complete {Ctx Sem : Type} [LinearOrder Ctx] (configs : ATNConfigSet Ctx Sem)
    (c : ATNConfig Ctx Sem) (hc : c ∈ configs.configs) :
    ∃ p ∈ configToAlts configs, conflictKey p.1 = conflictKey c ∧ c.alt ∈ p.2 :=
  (groupBy_inv conflictKey id ATNConfig.alt configs.configs).2.2.1 c hc

theorem configToAlts_sorted {Ctx Sem : Type} [LinearOrder Ctx] (configs : ATNConfigSet Ctx Sem) :
    (configToAlts configs).Pairwise (fun p q => conflictKey p.1 < conflictKey q.1) :=
  (groupBy_inv conflictKey id ATNConfig.alt configs.configs).1

theorem configToAlts_nonempty {Ctx Sem : Type} [LinearOrder Ctx] (configs : ATNConfigSet Ctx Sem)
    (p : ATNConfig Ctx Sem × BitSet) (hp : p ∈ configToAlts configs) : p.2.Nonempty :=
  (groupBy_inv conflictKey id ATNConfig.alt configs.configs).2.2.2 p hp

theorem getConflictingAltSubsets_nonempty {Ctx Sem : Type} [LinearOrder Ctx]
    (configs : ATNConfigSet Ctx Sem) (s : BitSet) (hs : s ∈ getConflictingAltSubsets configs) :
    s.Nonempty := by
  unfold getConflictingAltSubsets at hs
  obtain ⟨p, hp, rfl⟩ := List.mem_map.1 hs
  exact configToAlts_nonempty configs p hp

/-- With a single conflict key in a non-empty set, the map has one entry. -/
theorem configToAlts_single_key {Ctx Sem : Type} [LinearOrder Ctx]
    (configs : ATNConfigSet Ctx Sem) (st : Int) (ctx : Ctx) (hne : configs.configs ≠ [])
    (hkey : ∀ c ∈ configs.configs, c.state.stateNumber = st ∧ c.context = ctx) :
    ∃ p, configToAlts configs = [p] ∧ p.2 = (configs.configs.map ATNConfig.alt).toFinset := by
  have hk : ∀ c ∈ configs.configs, conflictKey c = toLex (st, ctx) := by
    intro c hc
    unfold conflictKey
    rw [(hkey c hc).1, (hkey c hc).2]
  have hkm : ∀ p ∈ configToAlts configs, conflictKey p.1 = toLex (st, ctx) := by
    intro p hp
    obtain ⟨c, hc, hcp⟩ := configToAlts_key_mem configs p hp
    rw [← hcp]
    exact hk c hc
  have hsorted := configToAlts_sorted configs
  obtain ⟨c0, hc0⟩ := List.exists_mem_of_ne_nil _ hne
  obtain ⟨p0, hp0, _, _⟩ := configToAlts_complete configs c0 hc0
  have hbucket : ∀ p ∈ configToAlts configs,
      p.2 = (configs.configs.map ATNConfig.alt).toFinset := by
    intro p hp
    ext a
    rw [mem_configToAlts_iff configs p hp a]
    simp only [List.mem_toFinset, List.mem_map]
    constructor
    · rintro ⟨c, hc, _, hca⟩
      exact ⟨c, hc, hca⟩
    · rintro ⟨c, hc, hca⟩
      exact ⟨c, hc, (hk c hc).trans (hkm p hp).symm, hca⟩
  cases hm : configToAlts configs with
  | nil => rw [hm] at hp0; cases hp0
  | cons p rest =>
    cases rest with
    | nil =>
      refine ⟨p, rfl, hbucket p ?_⟩
      rw [hm]
      exact List.mem_cons_self _ _
    | cons q rest' =>
      exfalso
      rw [hm, List.pairwise_cons] at hsorted
      have hlt := hsorted.1 q (List.mem_cons_self _ _)
      have h1 := hkm p (by rw [hm]; exact List.mem_cons_self _ _)
      have h2 := hkm q (by rw [hm]; exact List.mem_cons_of_mem _ (List.mem_cons_self _ _))
      rw [h1, h2] at hlt
      exact lt_irrefl _ hlt

/-- C11, as amended: on a non-empty configuration set whose configurations all
have the same state number and the same invocation context,
`getConflictingAltSubsets` returns one bucket, the set of all alternatives of the
set, and `getSingleViableAlt` over it returns the lowest of them. -/
theorem single_key_single_bucket {Ctx Sem : Type} [LinearOrder Ctx] (assertsOn : Bool)
    (inv : Int) (configs : ATNConfigSet Ctx Sem) (st : Int) (ctx : Ctx)
    (hne : configs.configs ≠ [])
    (hkey : ∀ c ∈ configs.configs, c.state.stateNumber = st ∧ c.context = ctx) :
    getConflictingAltSubsets configs = [(configs.configs.map ATNConfig.alt).toFinset] ∧
      ∃ h : ((configs.configs.map ATNConfig.alt).toFinset).Nonempty,
        getSingleViableAlt assertsOn inv (getConflictingAltSubsets configs) =
          .ok ((Finset.min' ((configs.configs.map ATNConfig.alt).toFinset) h : Nat) : Int) := by
  obtain ⟨p, hm, hp⟩ := configToAlts_single_key configs st ctx hne hkey
  have hb : getConflictingAltSubsets configs =
      [(configs.configs.map ATNConfig.alt).toFinset] := by
    unfold getConflictingAltSubsets
    rw [hm, List.map_cons, List.map_nil, hp]
  have hnonempty : ((configs.configs.map ATNConfig.alt).toFinset).Nonempty := by
    obtain ⟨c0, hc0⟩ := List.exists_mem_of_ne_nil _ hne
    exact ⟨c0.alt, by simp only [List.mem_toFinset, List.mem_map]; exact ⟨c0, hc0, rfl⟩⟩
  refine ⟨hb, hnonempty, ?_⟩
  rw [hb, getSingleViableAlt_cons assertsOn inv _ [] hnonempty (by simp), if_pos (by simp)]

/-- Witness of C11 on {(state 5, alt 1, ctx 0), (state 5, alt 2, ctx 0)}. -/
theorem single_key_single_bucket_witness :
    getConflictingAltSubsets sampleConflict =
        [(sampleConflict.configs.map ATNConfig.alt).toFinset] ∧
      ∃ h : ((sampleConflict.configs.map ATNConfig.alt).toFinset).Nonempty,
        getSingleViableAlt true 0 (getConflictingAltSubsets sampleConflict) =
          .ok ((Finset.min' ((sampleConflict.configs.map ATNConfig.alt).toFinset) h : Nat) : Int) :=
  single_key_single_bucket true 0 sampleConflict 5 0 (by decide) (by decide)

/-- C11 fails as stated on the empty configuration set: all of its (no)
configurations share state 5 and context 0, yet `getConflictingAltSubsets`
returns no bucket at all. -/
theorem single_key_empty_counterexample :
    (∀ c ∈ sampleEmpty.configs, c.state.stateNumber = 5 ∧ c.context = 0) ∧
      getConflictingAltSubsets sampleEmpty = [] ∧
      ¬ ∃ b, getConflictingAltSubsets sampleEmpty = [b] := by
  refine ⟨by decide, by decide, ?_⟩
  rintro ⟨b, hb⟩
  have h : getConflictingAltSubsets sampleEmpty = [] := by decide
  rw [h] at hb
  cases hb

theorem getStateToAltMap_mem_iff {Ctx Sem : Type} [LinearOrder Ctx]
    (configs : ATNConfigSet Ctx Sem) (e : ATNState × BitSet) (he : e ∈ getStateToAltMap configs)
    (a : Nat) :
    a ∈ e.2 ↔ ∃ c ∈ configs.configs, c.state.stateNumber = e.1.stateNumber ∧ c.alt = a :=
  groupBy_mem_iff ATNState.stateNumber (fun c : ATNConfig Ctx Sem => ATNState.slice c.state)
    ATNConfig.alt configs.configs e he a

theorem getStateToAltMap_key_mem {Ctx Sem : Type} [LinearOrder Ctx]
    (configs : ATNConfigSet Ctx Sem) (e : ATNState × BitSet) (he : e ∈ getStateToAltMap configs) :
    ∃ c ∈ configs.configs, c.state.stateNumber = e.1.stateNumber :=
  groupBy_key_mem ATNState.stateNumber (fun c : ATNConfig Ctx Sem => ATNState.slice c.state)
    ATNConfig.alt configs.configs e he

/-- C12: on a configuration set without semantic context whose configurations
share one non-rule-stop state and one invocation context and carry two distinct
alternatives, `hasSLLConflictTerminatingPrediction` in SLL mode passes the
rule-stop test, analyses the given set and returns true. -/
theorem sll_conflict_terminates {Ctx Sem : Type} [LinearOrder Ctx]
    (configs : ATNConfigSet Ctx Sem) (st : ATNState) (ctx : Ctx)
    (hsem : configs.hasSemanticContext = false) (hstop : st.isRuleStopState = false)
    (hkey : ∀ c ∈ configs.configs, c.state = st ∧ c.context = ctx)
    (halts : ∃ c ∈ configs.configs, ∃ d ∈ configs.configs, c.alt ≠ d.alt) :
    allConfigsInRuleStopStates configs = false ∧
      analysedConfigs PredictionMode.SLL configs = configs ∧
      hasSLLConflictTerminatingPrediction PredictionMode.SLL configs = true := by
  obtain ⟨c, hc, d, hd, hcd⟩ := halts
  have hall : allConfigsInRuleStopStates configs = false := by
    rw [Bool.eq_false_iff]
    unfold allConfigsInRuleStopStates
    rw [Ne, List.all_eq_true]
    intro h
    have := h c hc
    rw [(hkey c hc).1, hstop] at this
    cases this
  have han : analysedConfigs PredictionMode.SLL configs = configs := by
    unfold analysedConfigs
    simp [hsem]
  have hkeys : ∀ x ∈ configs.configs, ∀ y ∈ configs.configs, conflictKey x = conflictKey y := by
    intro x hx y hy
    unfold conflictKey
    rw [(hkey x hx).1, (hkey x hx).2, (hkey y hy).1, (hkey y hy).2]
  have hconf : hasConflictingAltSet (getConflictingAltSubsets configs) = true := by
    obtain ⟨p, hp, hkp, hcp⟩ := configToAlts_complete configs c hc
    have hdp : d.alt ∈ p.2 :=
      (mem_configToAlts_iff configs p hp d.alt).2 ⟨d, hd, (hkeys d hd c hc).trans hkp.symm, rfl⟩
    unfold hasConflictingAltSet
    rw [List.any_eq_true]
    refine ⟨p.2, ?_, ?_⟩
    · unfold getConflictingAltSubsets
      exact List.mem_map.2 ⟨p, hp, rfl⟩
    · simp only [BitSet.count, gt_iff_lt, decide_eq_true_eq]
      exact Finset.one_lt_card.2 ⟨c.alt, hcp, d.alt, hdp, hcd⟩
  have hone : hasStateAssociatedWithOneAlt configs = false := by
    rw [Bool.eq_false_iff]
    unfold hasStateAssociatedWithOneAlt
    rw [Ne, List.any_eq_true]
    rintro ⟨e, he, hcount⟩
    obtain ⟨x, hx, hxe⟩ := getStateToAltMap_key_mem configs e he
    have hst : ∀ y ∈ configs.configs, y.state.stateNumber = e.1.stateNumber := by
      intro y hy
      rw [← hxe, (hkey y hy).1, (hkey x hx).1]
    have h1 : c.alt ∈ e.2 := (getStateToAltMap_mem_iff configs e he c.alt).2 ⟨c, hc, hst c hc, rfl⟩
    have h2 : d.alt ∈ e.2 := (getStateToAltMap_mem_iff configs e he d.alt).2 ⟨d, hd, hst d hd, rfl⟩
    have hlt : 1 < Finset.card e.2 := Finset.one_lt_card.2 ⟨c.alt, h1, d.alt, h2, hcd⟩
    simp only [BitSet.count, beq_iff_eq] at hcount
    omega
  refine ⟨hall, han, ?_⟩
  unfold hasSLLConflictTerminatingPrediction
  rw [hall]
  simp only [Bool.false_eq_true, if_false, han, hconf, hone, Bool.not_false, Bool.and_self]

/-- Witness of C12 on {(state 5, alt 1, ctx 0), (state 5, alt 2, ctx 0)}. -/
theorem sll_conflict_terminates_witness :
    allConfigsInRuleStopStates sampleConflict = false ∧
      analysedConfigs PredictionMode.SLL sampleConflict = sampleConflict ∧
      hasSLLConflictTerminatingPrediction PredictionMode.SLL sampleConflict = true :=
  sll_conflict_terminates sampleConflict ⟨5, false⟩ 0 (by decide) (by decide) (by decide)
    (by decide)

/-- When every conflict key occurs with one alternative only, every bucket is
a singleton. -/
theorem bucket_eq_singleton {Ctx Sem : Type} [LinearOrder Ctx] (configs : ATNConfigSet Ctx Sem)
    (hone : ∀ c ∈ configs.configs, ∀ d ∈ configs.configs,
      (c.state.stateNumber, c.context) = (d.state.stateNumber, d.context) → c.alt = d.alt)
    (p : ATNConfig Ctx Sem × BitSet) (hp : p ∈ configToAlts configs) (x : Nat) (hx : x ∈ p.2) :
    p.2 = {x} := by
  ext a
  rw [Finset.mem_singleton]
  constructor
  · intro ha
    obtain ⟨c, hc, hkc, rfl⟩ := (mem_configToAlts_iff configs p hp _).1 ha
    obtain ⟨d, hd, hkd, rfl⟩ := (mem_configToAlts_iff configs p hp _).1 hx
    exact hone c hc d hd ((conflictKey_eq_iff c d).1 (hkc.trans hkd.symm))
  · rintro rfl
    exact hx

/-- C13: when every conflict key occurs with exactly one alternative and two
distinct alternatives occur in the set, over the buckets of
`getConflictingAltSubsets` the query `getUniqueAlt` returns the sentinel,
`hasNonConflictingAltSet` returns true and `getSingleViableAlt` returns the
sentinel. -/
theorem clean_buckets_no_single_alt {Ctx Sem : Type} [LinearOrder Ctx] (assertsOn : Bool)
    (inv : Int) (configs : ATNConfigSet Ctx Sem)
    (hone : ∀ c ∈ configs.configs, ∀ d ∈ configs.configs,
      (c.state.stateNumber, c.context) = (d.state.stateNumber, d.context) → c.alt = d.alt)
    (htwo : ∃ c ∈ configs.configs, ∃ d ∈ configs.configs, c.alt ≠ d.alt) :
    getUniqueAlt inv (getConflictingAltSubsets configs) = inv ∧
      hasNonConflictingAltSet (getConflictingAltSubsets configs) = true ∧
      getSingleViableAlt assertsOn inv (getConflictingAltSubsets configs) = .ok inv := by
  obtain ⟨c, hc, d, hd, hcd⟩ := htwo
  obtain ⟨pc, hpc, _, hcpc⟩ := configToAlts_complete configs c hc
  obtain ⟨pd, hpd, _, hdpd⟩ := configToAlts_complete configs d hd
  have hsc := bucket_eq_singleton configs hone pc hpc c.alt hcpc
  have hsd := bucket_eq_singleton configs hone pd hpd d.alt hdpd
  have hmc : pc.2 ∈ getConflictingAltSubsets configs := List.mem_map.2 ⟨pc, hpc, rfl⟩
  have hmd : pd.2 ∈ getConflictingAltSubsets configs := List.mem_map.2 ⟨pd, hpd, rfl⟩
  refine ⟨?_, ?_, ?_⟩
  · have h1 : c.alt ∈ getAlts (getConflictingAltSubsets configs) :=
      (mem_getAlts_conflicting configs c.alt).2 ⟨c, hc, rfl⟩
    have h2 : d.alt ∈ getAlts (getConflictingAltSubsets configs) :=
      (mem_getAlts_conflicting configs d.alt).2 ⟨d, hd, rfl⟩
    have hlt : 1 < (getAlts (getConflictingAltSubsets configs)).card :=
      Finset.one_lt_card.2 ⟨c.alt, h1, d.alt, h2, hcd⟩
    have hne : ¬ (getAlts (getConflictingAltSubsets configs)).card = 1 := by omega
    simp only [getUniqueAlt, BitSet.count, hne, if_false]
  · unfold hasNonConflictingAltSet
    rw [List.any_eq_true]
    refine ⟨pc.2, hmc, ?_⟩
    simp [BitSet.count, hsc]
  · have hnonempty := getConflictingAltSubsets_nonempty configs
    cases hb : getConflictingAltSubsets configs with
    | nil => rw [hb] at hmc; cases hmc
    | cons s rest =>
      rw [hb] at hnonempty hmc hmd
      have hs : s.Nonempty := hnonempty s (List.mem_cons_self _ _)
      have hrest : ∀ t ∈ rest, t.Nonempty := fun t ht => hnonempty t (List.mem_cons_of_mem _ ht)
      have hmin : Finset.min s = ((Finset.min' s hs : Nat) : WithTop Nat) :=
        (firstSetBit_eq_min s _).1 (firstSetBit_of_nonempty s hs)
      rw [getSingleViableAlt_cons assertsOn inv s rest hs hrest, if_neg]
      intro hall
      have hall' : ∀ t ∈ s :: rest, Finset.min t = ((Finset.min' s hs : Nat) : WithTop Nat) := by
        intro t ht
        rcases List.mem_cons.1 ht with rfl | ht
        · exact hmin
        · exact hall t ht
      have e1 := hall' _ hmc
      have e2 := hall' _ hmd
      rw [hsc, Finset.min_singleton] at e1
      rw [hsd, Finset.min_singleton] at e2
      exact hcd (WithTop.coe_injective (e1.trans e2.symm))

/-- Witness of C13 on {(state 5, alt 1, ctx 0), (state 7, alt 2, ctx 1)}. -/
theorem clean_buckets_no_single_alt_witness :
    getUniqueAlt 0 (getConflictingAltSubsets sampleClean) = 0 ∧
      hasNonConflictingAltSet (getConflictingAltSubsets sampleClean) = true ∧
      getSingleViableAlt true 0 (getConflictingAltSubsets sampleClean) = .ok 0 :=
  clean_buckets_no_single_alt true 0 sampleClean (by decide) (by decide)

/-! ## Predicate stripping -/

theorem mem_add_of_mem {Ctx Sem : Type} [LinearOrder Ctx] (s : ATNConfigSet Ctx Sem)
    (c d : ATNConfig Ctx Sem) (hd : d ∈ s.configs) : d ∈ (s.add c).configs := by
  unfold ATNConfigSet.add
  simp only
  split_ifs
  · exact hd
  · exact List.mem_append_left _ hd

theorem exists_mem_add {Ctx Sem : Type} [LinearOrder Ctx] (s : ATNConfigSet Ctx Sem)
    (c : ATNConfig Ctx Sem) :
    ∃ d ∈ (s.add c).configs, conflictKey d = conflictKey c ∧ d.alt = c.alt := by
  unfold ATNConfigSet.add
  simp only
  split_ifs with h
  · rw [List.any_eq_true] at h
    obtain ⟨d, hd, hdc⟩ := h
    exact ⟨d, hd, of_decide_eq_true hdc⟩
  · exact ⟨c, List.mem_append_right _ (List.mem_singleton_self c), rfl, rfl⟩

theorem dupWithoutPredicates_fold_mono {Ctx Sem : Type} [LinearOrder Ctx]
    (cs : List (ATNConfig Ctx Sem)) (acc : ATNConfigSet Ctx Sem) (d : ATNConfig Ctx Sem)
    (hd : d ∈ acc.configs) :
    d ∈ (cs.foldl (fun dup config => dup.add (config.withSemanticContext none)) acc).configs := by
  induction cs generalizing acc with
  | nil => exact hd
  | cons c rest ih => exact ih _ (mem_add_of_mem acc _ d hd)

theorem dupWithoutPredicates_fold_complete {Ctx Sem : Type} [LinearOrder Ctx]
    (cs : List (ATNConfig Ctx Sem)) (acc : ATNConfigSet Ctx Sem) (c : ATNConfig Ctx Sem)
    (hc : c ∈ cs) :
    ∃ d ∈ (cs.foldl (fun dup config => dup.add (config.withSemanticContext none)) acc).configs,
      conflictKey d = conflictKey (c.withSemanticContext none) ∧ d.alt = c.alt := by
  induction cs generalizing acc with
  | nil => cases hc
  | cons c' rest ih =>
    rcases List.mem_cons.1 hc with rfl | hc'
    · obtain ⟨d, hd, hk, ha⟩ := exists_mem_add acc (c.withSemanticContext none)
      exact ⟨d, dupWithoutPredicates_fold_mono rest _ d hd, hk, ha⟩
    · exact ih _ hc'

/-- C15: the set analysed is the predicate-stripped duplicate in SLL mode with
`hasSemanticContext`, and the given set in every other case; the duplicate holds
the configurations of the input with the semantic context replaced by NONE and
state, alternative and invocation context kept. -/
theorem analysedConfigs_spec {Ctx Sem : Type} [LinearOrder Ctx] (mode : PredictionMode)
    (configs : ATNConfigSet Ctx Sem) :
    analysedConfigs mode configs =
        (if mode = PredictionMode.SLL ∧ configs.hasSemanticContext = true
          then dupWithoutPredicates configs else configs) ∧
      (∀ d ∈ (dupWithoutPredicates configs).configs, ∃ c ∈ configs.configs,
        d = { state := c.state, alt := c.alt, context := c.context, semanticContext := none }) ∧
      (∀ c ∈ configs.configs, ∃ d ∈ (dupWithoutPredicates configs).configs,
        d.state.stateNumber = c.state.stateNumber ∧ d.alt = c.alt ∧ d.context = c.context ∧
          d.semanticContext = none) ∧
      hasSLLConflictTerminatingPrediction mode configs =
        (allConfigsInRuleStopStates configs ||
          (hasConflictingAltSet (getConflictingAltSubsets (analysedConfigs mode configs)) &&
            !hasStateAssociatedWithOneAlt (analysedConfigs mode configs))) := by
  refine ⟨?_, ?_, ?_, ?_⟩
  · unfold analysedConfigs
    by_cases h1 : mode = PredictionMode.SLL <;>
      by_cases h2 : configs.hasSemanticContext = true <;> simp [h1, h2]
  · intro d hd
    obtain ⟨c, hc, hdc⟩ := mem_dupWithoutPredicates configs d hd
    exact ⟨c, hc, hdc⟩
  · intro c hc
    obtain ⟨d, hd, hk, ha⟩ :=
      dupWithoutPredicates_fold_complete configs.configs ATNConfigSet.empty c hc
    obtain ⟨c', _, hdc'⟩ := mem_dupWithoutPredicates configs d hd
    have hk' := (conflictKey_eq_iff d (c.withSemanticContext none)).1 hk
    simp only [ATNConfig.withSemanticContext, Prod.mk.injEq] at hk'
    refine ⟨d, hd, hk'.1, ha, hk'.2, ?_⟩
    rw [hdc']
    rfl
  · unfold hasSLLConflictTerminatingPrediction
    by_cases h : allConfigsInRuleStopStates configs = true
    · simp [h]
    · simp [h]

/-! ## Characterisations of the remaining queries -/

/-- C16: `hasNonConflictingAltSet` returns true exactly when some subset of the
list has exactly one alternative. -/
theorem hasNonConflictingAltSet_iff (altsets : List BitSet) :
    hasNonConflictingAltSet altsets = true ↔ ∃ s ∈ altsets, Finset.card s = 1 := by
  unfold hasNonConflictingAltSet
  rw [List.any_eq_true]
  simp only [BitSet.count, beq_iff_eq]

/-- C17: `hasConflictingAltSet` returns true exactly when some subset of the
list has more than one alternative, and returns false on the empty list. -/
theorem hasConflictingAltSet_iff (altsets : List BitSet) :
    (hasConflictingAltSet altsets = true ↔ ∃ s ∈ altsets, 1 < Finset.card s) ∧
      hasConflictingAltSet [] = false := by
  refine ⟨?_, rfl⟩
  unfold hasConflictingAltSet
  rw [List.any_eq_true]
  simp only [BitSet.count, gt_iff_lt, decide_eq_true_eq]

/-- C18: `allSubsetsConflict` is the negation of `hasNonConflictingAltSet`: it
returns true exactly when no subset of the list has exactly one alternative. -/
theorem allSubsetsConflict_iff (altsets : List BitSet) :
    allSubsetsConflict altsets = (!hasNonConflictingAltSet altsets) ∧
      (allSubsetsConflict altsets = true ↔ ∀ s ∈ altsets, Finset.card s ≠ 1) := by
  refine ⟨rfl, ?_⟩
  unfold allSubsetsConflict hasNonConflictingAltSet
  rw [Bool.not_eq_true', ← Bool.not_eq_true, List.any_eq_true]
  simp only [BitSet.count, beq_iff_eq, not_exists, not_and]

theorem foldl_mapSetBit_proj_mem {C E K : Type} [LinearOrder K] (key : E → K) (proj : C → E)
    (alt : C → Nat) (cs cs0 : List C) (m : List (E × BitSet))
    (hm : ∀ p ∈ m, ∃ d ∈ cs0, proj d = p.1) :
    ∀ p ∈ cs.foldl (fun m c => mapSetBit key (proj c) (alt c) m) m,
      ∃ d ∈ cs0 ++ cs, proj d = p.1 := by
  induction cs generalizing cs0 m with
  | nil => simpa using hm
  | cons c rest ih =>
    have hstep : ∀ p ∈ mapSetBit key (proj c) (alt c) m, ∃ d ∈ cs0 ++ [c], proj d = p.1 := by
      intro p hp
      rcases mem_mapSetBit_cases key _ _ m p hp with h | ⟨v, hv, _, _⟩ | h
      · obtain ⟨d, hd, hdp⟩ := hm p h
        exact ⟨d, List.mem_append_left _ hd, hdp⟩
      · obtain ⟨d, hd, hdp⟩ := hm (p.1, v) hv
        exact ⟨d, List.mem_append_left _ hd, hdp⟩
      · exact ⟨c, by simp, by rw [h]⟩
    have := ih (cs0 ++ [c]) (mapSetBit key (proj c) (alt c) m) hstep
    simpa [List.append_assoc] using this

/-- C19: `getStateToAltMap` has one entry per state of the set (states being
identified by their state number): the state numbers of the keys are pairwise
distinct and are exactly the state numbers occurring in the set, and each state
is mapped to exactly the alternatives of the configurations in that state,
whatever their invocation contexts. -/
theorem getStateToAltMap_spec {Ctx Sem : Type} [LinearOrder Ctx]
    (configs : ATNConfigSet Ctx Sem) :
    ((getStateToAltMap configs).map (fun e => e.1.stateNumber)).Nodup ∧
      (∀ e ∈ getStateToAltMap configs, ∃ c ∈ configs.configs,
        c.state.stateNumber = e.1.stateNumber) ∧
      (∀ c ∈ configs.configs, ∃ e ∈ getStateToAltMap configs,
        e.1.stateNumber = c.state.stateNumber) ∧
      (∀ e ∈ getStateToAltMap configs, ∀ a : Nat,
        a ∈ e.2 ↔ ∃ c ∈ configs.configs, c.state.stateNumber = e.1.stateNumber ∧ c.alt = a) := by
  obtain ⟨hsorted, _, hcompl, _⟩ :=
    groupBy_inv ATNState.stateNumber (fun c : ATNConfig Ctx Sem => ATNState.slice c.state)
      ATNConfig.alt configs.configs
  refine ⟨?_, ?_, ?_, ?_⟩
  · unfold List.Nodup
    rw [List.pairwise_map]
    exact List.Pairwise.imp (fun hlt => ne_of_lt hlt) hsorted
  · intro e he
    exact getStateToAltMap_key_mem configs e he
  · intro c hc
    obtain ⟨e, he, hk, _⟩ := hcompl c hc
    exact ⟨e, he, hk⟩
  · intro e he a
    exact getStateToAltMap_mem_iff configs e he a

/-- An instance of C19 on two rule-stop states: the keys are the sliced copies
of the states, with the state numbers 3 and 4. -/
theorem getStateToAltMap_sliced_sample :
    getStateToAltMap sampleRuleStop = [(⟨3, false⟩, {1}), (⟨4, false⟩, {2})] := by
  decide

/-- An instance of C19 on a set with states 5 and 7, state 5 under two
contexts: the map is 5 ↦ {1, 2}, 7 ↦ {2}. -/
theorem getStateToAltMap_sample :
    getStateToAltMap sampleTwoStates = [(⟨5, false⟩, {1, 2}), (⟨7, false⟩, {2})] := by
  decide

/-! ## The caller's configuration set is left as it is -/

theorem Store.add_concat {Ctx Sem : Type} [LinearOrder Ctx] (h : Store Ctx Sem)
    (s : ATNConfigSet Ctx Sem) (c : ATNConfig Ctx Sem) :
    Store.add (h ++ [s]) h.length c = h ++ [s.add c] := by
  induction h with
  | nil => rfl
  | cons x rest ih =>
    show x :: Store.add (rest ++ [s]) rest.length c = x :: (rest ++ [s.add c])
    rw [ih]

theorem Store.foldl_add_concat {Ctx Sem : Type} [LinearOrder Ctx] (h : Store Ctx Sem)
    (f : ATNConfig Ctx Sem → ATNConfig Ctx Sem) (cs : List (ATNConfig Ctx Sem))
    (acc : ATNConfigSet Ctx Sem) :
    cs.foldl (fun h' config => Store.add h' h.length (f config)) (h ++ [acc]) =
      h ++ [cs.foldl (fun dup config => dup.add (f config)) acc] := by
  induction cs generalizing acc with
  | nil => rfl
  | cons c rest ih =>
    simp only [List.foldl_cons]
    rw [Store.add_concat, ih]

/-- C14: `hasSLLConflictTerminatingPrediction`, run on a store of configuration
sets with a pointer to the caller's set, returns the flag of the pure function
and leaves the caller's set (and every object that existed before the call) as
it was; when predicates are stripped, the stripped configurations are in a set
allocated by the call at a fresh address. -/
theorem hasSLLConflictTerminatingPredictionOnStore_frame {Ctx Sem : Type} [LinearOrder Ctx]
    (mode : PredictionMode) (h : Store Ctx Sem) (p : Nat) (cs : ATNConfigSet Ctx Sem)
    (hp : h[p]? = some cs) :
    ∃ h' : Store Ctx Sem,
      hasSLLConflictTerminatingPredictionOnStore mode p h =
          some (hasSLLConflictTerminatingPrediction mode cs, h') ∧
        h'[p]? = some cs ∧
        (∀ q, q < h.length → h'[q]? = h[q]?) ∧
        h' = (if allConfigsInRuleStopStates cs = false ∧ mode = PredictionMode.SLL ∧
                cs.hasSemanticContext = true
              then h ++ [dupWithoutPredicates cs] else h) := by
  have hplt : p < h.length := by
    by_contra hge
    rw [List.getElem?_eq_none (by omega)] at hp
    cases hp
  by_cases hall : allConfigsInRuleStopStates cs = true
  · refine ⟨h, ?_, hp, fun _ _ => rfl, ?_⟩
    · simp [hasSLLConflictTerminatingPredictionOnStore, hasSLLConflictTerminatingPrediction,
        hp, hall]
    · simp [hall]
  · have hall' : allConfigsInRuleStopStates cs = false := by simpa using hall
    by_cases hstrip : mode = PredictionMode.SLL ∧ cs.hasSemanticContext = true
    · obtain ⟨hmode, hsem⟩ := hstrip
      have hfold : cs.configs.foldl
          (fun h' config => Store.add h' h.length (config.withSemanticContext none))
          (h ++ [ATNConfigSet.empty]) = h ++ [dupWithoutPredicates cs] :=
        Store.foldl_add_concat h (fun config => config.withSemanticContext none) cs.configs
          ATNConfigSet.empty
      refine ⟨h ++ [dupWithoutPredicates cs], ?_, ?_, ?_, ?_⟩
      · simp only [hasSLLConflictTerminatingPredictionOnStore, hp, hall', Bool.false_eq_true,
          if_false, hmode, hsem, if_true, Store.alloc, hfold, List.getElem?_concat_length,
          hasSLLConflictTerminatingPrediction, analysedConfigs]
      · rw [List.getElem?_append_left hplt]
        exact hp
      · intro q hq
        exact List.getElem?_append_left hq
      · simp [hall', hmode, hsem]
    · have hcs : analysedConfigs mode cs = cs := by
        unfold analysedConfigs
        by_cases h1 : mode = PredictionMode.SLL
        · have h2 : cs.hasSemanticContext = false := by
            cases hb : cs.hasSemanticContext
            · rfl
            · exact absurd ⟨h1, hb⟩ hstrip
          simp [h1, h2]
        · simp [h1]
      have hr : (if mode = PredictionMode.SLL then
            if cs.hasSemanticContext = true then
              ((Store.alloc h).1, cs.configs.foldl
                (fun h' config =>
                  Store.add h' (Store.alloc h).1 (config.withSemanticContext none))
                (Store.alloc h).2)
            else (p, h)
          else (p, h)) = (p, h) := by
        by_cases h1 : mode = PredictionMode.SLL
        · have h2 : cs.hasSemanticContext = false := by
            cases hb : cs.hasSemanticContext
            · rfl
            · exact absurd ⟨h1, hb⟩ hstrip
          simp [h1, h2]
        · simp [h1]
      refine ⟨h, ?_, hp, fun _ _ => rfl, ?_⟩
      · simp only [hasSLLConflictTerminatingPredictionOnStore, hp, hall', Bool.false_eq_true,
          if_false, hr, hasSLLConflictTerminatingPrediction, hcs]
      · have : ¬ (allConfigsInRuleStopStates cs = false ∧ mode = PredictionMode.SLL ∧
            cs.hasSemanticContext = true) := fun hh => hstrip hh.2
        rw [if_neg this]

/-- Witness of C14: SLL mode on a store whose only object is a set with
predicates; the call allocates the stripped duplicate at address 1. -/
theorem hasSLLConflictTerminatingPredictionOnStore_frame_witness :
    ∃ h' : Store Nat Nat,
      hasSLLConflictTerminatingPredictionOnStore PredictionMode.SLL 0 [samplePredicated] =
          some (hasSLLConflictTerminatingPrediction PredictionMode.SLL samplePredicated, h') ∧
        h'[0]? = some samplePredicated ∧
        (∀ q, q < [samplePredicated].length → h'[q]? = [samplePredicated][q]?) ∧
        h' = (if allConfigsInRuleStopStates samplePredicated = false ∧
                PredictionMode.SLL = PredictionMode.SLL ∧
                samplePredicated.hasSemanticContext = true
              then [samplePredicated] ++ [dupWithoutPredicates samplePredicated]
              else [samplePredicated]) :=
  hasSLLConflictTerminatingPredictionOnStore_frame PredictionMode.SLL [samplePredicated] 0
    samplePredicated (by decide)

/-! ## The no-viable-alternative record -/

theorem NoViableAltException.afterCalls_eq {Tok Stream RuleCtx CfgSet : Type}
    (e : NoViableAltException Tok Stream RuleCtx CfgSet) (calls : List NoViableAltCall) :
    e.afterCalls calls = e := by
  unfold NoViableAltException.afterCalls
  induction calls with
  | nil => rfl
  | cons c rest ih =>
    rw [List.foldl_cons]
    cases c <;> exact ih

/-- C20: after any sequence of calls of its member functions, a
`NoViableAltException` returns from `getStartToken` and `getDeadEndConfigs` the
start token and the dead-end configuration set given to the constructor; the
one-argument constructor yields a record whose start token and offending token
are the recognizer's current token, whose dead-end configuration set is null and
whose context is the recognizer's current context. -/
theorem NoViableAltException_immutable {Tok Stream RuleCtx CfgSet : Type}
    (recognizer : RecognizerReads Tok Stream RuleCtx) (input : Stream) (startToken : Tok)
    (offendingToken : Tok) (deadEndConfigs : Option CfgSet) (ctx : RuleCtx)
    (calls : List NoViableAltCall) :
    ((NoViableAltException.create recognizer input startToken offendingToken deadEndConfigs
        ctx).afterCalls calls).getStartToken = startToken ∧
      ((NoViableAltException.create recognizer input startToken offendingToken deadEndConfigs
        ctx).afterCalls calls).getDeadEndConfigs = deadEndConfigs ∧
      ((NoViableAltException.createLL1 recognizer :
        NoViableAltException Tok Stream RuleCtx CfgSet).afterCalls calls).getStartToken =
          recognizer.getCurrentToken ∧
      ((NoViableAltException.createLL1 recognizer :
        NoViableAltException Tok Stream RuleCtx CfgSet).afterCalls calls).offendingToken =
          recognizer.getCurrentToken ∧
      ((NoViableAltException.createLL1 recognizer :
        NoViableAltException Tok Stream RuleCtx CfgSet).afterCalls calls).getDeadEndConfigs =
          none ∧
      ((NoViableAltException.createLL1 recognizer :
        NoViableAltException Tok Stream RuleCtx CfgSet).afterCalls calls).ctx =
          recognizer._ctx := by
  simp only [NoViableAltException.afterCalls_eq]
  exact ⟨rfl, rfl, rfl, rfl, rfl, rfl⟩

/-! ## The conflict-key comparator and its hash -/

/-- C24: on two non-null configurations `equals` returns true exactly when the
state numbers are the same and the contexts deep-equal, whatever the
alternatives and semantic contexts; with exactly one null argument it returns
false, and on the same pointer twice (null included) it returns true. -/
theorem AltAndContextConfigEqualityComparator_equals_spec {Ctx Sem : Type} [DecidableEq Ctx]
    (heap : List (ATNConfig Ctx Sem)) (i j : Nat) (x y : ATNConfig Ctx Sem)
    (hx : heap[i]? = some x) (hy : heap[j]? = some y) :
    AltAndContextConfigEqualityComparator.equals heap (some i) (some j) =
        some (decide (x.state.stateNumber = y.state.stateNumber ∧ x.context = y.context)) ∧
      (∀ (f : ATNConfig Ctx Sem → Nat) (g : ATNConfig Ctx Sem → Option Sem),
        AltAndContextConfigEqualityComparator.equals
            (heap.map (fun c => { c with alt := f c, semanticContext := g c }))
            (some i) (some j) =
          AltAndContextConfigEqualityComparator.equals heap (some i) (some j)) ∧
      AltAndContextConfigEqualityComparator.equals heap (some i) none = some false ∧
      AltAndContextConfigEqualityComparator.equals heap none (some j) = some false ∧
      (∀ a : Option Nat, AltAndContextConfigEqualityComparator.equals heap a a = some true) := by
  have hmain : ∀ (heap' : List (ATNConfig Ctx Sem)) (x' y' : ATNConfig Ctx Sem),
      heap'[i]? = some x' → heap'[j]? = some y' →
      AltAndContextConfigEqualityComparator.equals heap' (some i) (some j) =
        some (decide (x'.state.stateNumber = y'.state.stateNumber ∧ x'.context = y'.context)) := by
    intro heap' x' y' hx' hy'
    unfold AltAndContextConfigEqualityComparator.equals
    by_cases hij : i = j
    · subst hij
      rw [hx'] at hy'
      cases hy'
      simp
    · have hne : ¬ (some i : Option Nat) = some j := fun h => hij (Option.some.inj h)
      rw [if_neg hne]
      simp only [hx', hy', Bool.decide_and]
  refine ⟨hmain heap x y hx hy, ?_, ?_, ?_, ?_⟩
  · intro f g
    rw [hmain heap x y hx hy]
    exact hmain _ { x with alt := f x, semanticContext := g x }
      { y with alt := f y, semanticContext := g y }
      (by rw [List.getElem?_map, hx]; rfl) (by rw [List.getElem?_map, hy]; rfl)
  · simp [AltAndContextConfigEqualityComparator.equals]
  · simp [AltAndContextConfigEqualityComparator.equals]
  · intro a
    simp [AltAndContextConfigEqualityComparator.equals]

/-- Witness of C24 on two configurations with the conflict key (5, 0) and
different alternatives and predicates. -/
theorem AltAndContextConfigEqualityComparator_equals_spec_witness :
    AltAndContextConfigEqualityComparator.equals sampleHeap (some 0) (some 1) = some true :=
  (AltAndContextConfigEqualityComparator_equals_spec sampleHeap 0 1 ⟨⟨5, false⟩, 1, 0, some 10⟩
    ⟨⟨5, false⟩, 2, 0, none⟩ (by decide) (by decide)).1

/-- C25: configurations that `equals` identifies have the same `hashCode`; the
hash is the mix, from seed 7 and finished with word count 2, of the state number
and the hash of the context. -/
theorem AltAndContextConfigEqualityComparator_hashCode_consistent {Ctx Sem : Type}
    [DecidableEq Ctx] (M : MurmurHash Ctx) (heap : List (ATNConfig Ctx Sem)) (i j : Nat)
    (x y : ATNConfig Ctx Sem) (hx : heap[i]? = some x) (hy : heap[j]? = some y)
    (heq : AltAndContextConfigEqualityComparator.equals heap (some i) (some j) = some true) :
    AltAndContextConfigEqualityComparator.hashCode M x =
        AltAndContextConfigEqualityComparator.hashCode M y ∧
      AltAndContextConfigEqualityComparator.hashCode M x =
        M.finish (M.update (M.update (M.init 7) x.state.stateNumber)
          (M.contextHash x.context)) 2 := by
  refine ⟨?_, rfl⟩
  unfold AltAndContextConfigEqualityComparator.equals at heq
  by_cases hij : i = j
  · subst hij
    rw [hx] at hy
    cases hy
    rfl
  · have hne : ¬ (some i : Option Nat) = some j := fun h => hij (Option.some.inj h)
    rw [if_neg hne] at heq
    simp only [hx, hy, Option.some.injEq, Bool.and_eq_true, decide_eq_true_eq] at heq
    unfold AltAndContextConfigEqualityComparator.hashCode
    rw [heq.1, heq.2]

/-- Witness of C25 on two configurations with the conflict key (5, 0). -/
theorem AltAndContextConfigEqualityComparator_hashCode_consistent_witness :
    AltAndContextConfigEqualityComparator.hashCode sampleMurmur
        (⟨⟨5, false⟩, 1, 0, some 10⟩ : ATNConfig Nat Nat) =
      AltAndContextConfigEqualityComparator.hashCode sampleMurmur
        (⟨⟨5, false⟩, 2, 0, none⟩ : ATNConfig Nat Nat) :=
  (AltAndContextConfigEqualityComparator_hashCode_consistent sampleMurmur sampleHeap 0 1
    ⟨⟨5, false⟩, 1, 0, some 10⟩ ⟨⟨5, false⟩, 2, 0, none⟩ (by decide) (by decide)
    (by decide)).1

/-! ## Assertions of `getSingleViableAlt` -/

/-- C26: on a non-empty list of non-empty subsets no assertion of
`getSingleViableAlt` fails: with assertions on the function returns, through
the early return of the sentinel or through the return of a set bit of
`viableAlts`, and the value is the one returned with assertions off. -/
theorem getSingleViableAlt_asserts_hold (inv : Int) (altsets : List BitSet)
    (hne : altsets ≠ []) (hs : ∀ s ∈ altsets, s.Nonempty) :
    (getSingleViableAlt true inv altsets = .ok inv ∨
        ∃ m : Nat, getSingleViableAlt true inv altsets = .ok (m : Int)) ∧
      getSingleViableAlt true inv altsets ≠ .error Fault.assertion ∧
      getSingleViableAlt true inv altsets = getSingleViableAlt false inv altsets := by
  cases altsets with
  | nil => exact absurd rfl hne
  | cons s rest =>
    have hs0 : s.Nonempty := hs s (List.mem_cons_self _ _)
    have hrest : ∀ t ∈ rest, t.Nonempty := fun t ht => hs t (List.mem_cons_of_mem _ ht)
    rw [getSingleViableAlt_cons true inv s rest hs0 hrest,
      getSingleViableAlt_cons false inv s rest hs0 hrest]
    refine ⟨?_, ?_, rfl⟩
    · split_ifs
      · exact Or.inr ⟨_, rfl⟩
      · exact Or.inl rfl
    · split_ifs <;> intro h <;> cases h

/-- Witness of C26 on the buckets {1, 2} and {1, 3}. -/
theorem getSingleViableAlt_asserts_hold_witness :
    (getSingleViableAlt true 0 [{1, 2}, {1, 3}] = .ok 0 ∨
        ∃ m : Nat, getSingleViableAlt true 0 [{1, 2}, {1, 3}] = .ok (m : Int)) ∧
      getSingleViableAlt true 0 [{1, 2}, {1, 3}] ≠ .error Fault.assertion ∧
      getSingleViableAlt true 0 [{1, 2}, {1, 3}] = getSingleViableAlt false 0 [{1, 2}, {1, 3}] :=
  getSingleViableAlt_asserts_hold 0 [{1, 2}, {1, 3}] (by decide) (by decide)

/-- C27: on the empty list `getSingleViableAlt` reaches the trailing
`assert(false)`: with assertions on the run ends there, with assertions off it
returns -1 from the last line, for every value of the sentinel. -/
theorem getSingleViableAlt_nil (inv : Int) :
    getSingleViableAlt true inv [] = .error Fault.assertion ∧
      getSingleViableAlt false inv [] = .ok (-1) := by
  unfold getSingleViableAlt
  simp [getSingleViableAltFrom, firstSetBit_empty]

/-- C28: every bucket of `getConflictingAltSubsets` is non-empty, the list of
buckets is empty exactly when the configuration set is, and on a non-empty set
`getSingleViableAlt` over the buckets returns with assertions on. -/
theorem getConflictingAltSubsets_buckets_nonempty {Ctx Sem : Type} [LinearOrder Ctx]
    (inv : Int) (configs : ATNConfigSet Ctx Sem) :
    (∀ s ∈ getConflictingAltSubsets configs, s.Nonempty) ∧
      (getConflictingAltSubsets configs = [] ↔ configs.configs = []) ∧
      (configs.configs = [] ∨
        ∃ v : Int, getSingleViableAlt true inv (getConflictingAltSubsets configs) = .ok v) := by
  have hnonempty := getConflictingAltSubsets_nonempty configs
  have hiff : getConflictingAltSubsets configs = [] ↔ configs.configs = [] := by
    constructor
    · intro h
      by_contra hne
      obtain ⟨c, hc⟩ := List.exists_mem_of_ne_nil _ hne
      obtain ⟨p, hp, _, _⟩ := configToAlts_complete configs c hc
      have : p.2 ∈ getConflictingAltSubsets configs := List.mem_map.2 ⟨p, hp, rfl⟩
      rw [h] at this
      cases this
    · intro h
      unfold getConflictingAltSubsets configToAlts
      rw [h]
      rfl
  refine ⟨hnonempty, hiff, ?_⟩
  by_cases hc : configs.configs = []
  · exact Or.inl hc
  · right
    have hb : getConflictingAltSubsets configs ≠ [] := fun h => hc (hiff.1 h)
    cases hl : getConflictingAltSubsets configs with
    | nil => exact absurd hl hb
    | cons s rest =>
      rw [hl] at hnonempty
      rw [getSingleViableAlt_cons true inv s rest (hnonempty s (List.mem_cons_self _ _))
        (fun t ht => hnonempty t (List.mem_cons_of_mem _ ht))]
      split_ifs
      · exact ⟨_, rfl⟩
      · exact ⟨_, rfl⟩

/-- C29: the mode acts through predicate stripping only: LL and
LL_EXACT_AMBIG_DETECTION give the same result on every configuration set, and
without `hasSemanticContext` the three modes give the same result. -/
theorem hasSLLConflictTerminatingPrediction_mode {Ctx Sem : Type} [LinearOrder Ctx]
    (configs : ATNConfigSet Ctx Sem) :
    hasSLLConflictTerminatingPrediction PredictionMode.LL configs =
        hasSLLConflictTerminatingPrediction PredictionMode.LL_EXACT_AMBIG_DETECTION configs ∧
      (configs.hasSemanticContext = false →
        ∀ m₁ m₂ : PredictionMode,
          hasSLLConflictTerminatingPrediction m₁ configs =
            hasSLLConflictTerminatingPrediction m₂ configs) := by
  refine ⟨rfl, ?_⟩
  intro hsem m₁ m₂
  have han : ∀ m : PredictionMode, analysedConfigs m configs = configs := by
    intro m
    unfold analysedConfigs
    simp [hsem]
  unfold hasSLLConflictTerminatingPrediction
  simp only [han]

/-- Witness of C29 on {(state 5, alt 1, ctx 0), (state 5, alt 2, ctx 0)}, a set
without semantic context. -/
theorem hasSLLConflictTerminatingPrediction_mode_witness :
    hasSLLConflictTerminatingPrediction PredictionMode.LL sampleConflict =
        hasSLLConflictTerminatingPrediction PredictionMode.LL_EXACT_AMBIG_DETECTION
          sampleConflict ∧
      ∀ m₁ m₂ : PredictionMode,
        hasSLLConflictTerminatingPrediction m₁ sampleConflict =
          hasSLLConflictTerminatingPrediction m₂ sampleConflict :=
  ⟨(hasSLLConflictTerminatingPrediction_mode sampleConflict).1,
    (hasSLLConflictTerminatingPrediction_mode sampleConflict).2 (by decide)⟩

/-! ## Predicate stripping keeps the groupings -/

/-- The entries of a grouping, read as pairs of key and bucket, are those of
the relation between keys and alternatives that the elements define. -/
theorem groupBy_entry_iff {C E K : Type} [LinearOrder K] (key : E → K) (proj : C → E)
    (alt : C → Nat) (cs : List C) (x : K × BitSet) :
    x ∈ (cs.foldl (fun m c => mapSetBit key (proj c) (alt c) m) []).map
        (fun p => (key p.1, p.2)) ↔
      (∃ d ∈ cs, key (proj d) = x.1) ∧
        ∀ a, a ∈ x.2 ↔ ∃ d ∈ cs, key (proj d) = x.1 ∧ alt d = a := by
  obtain ⟨_, _, hcompl, _⟩ := groupBy_inv key proj alt cs
  constructor
  · intro hx
    obtain ⟨p, hp, rfl⟩ := List.mem_map.1 hx
    exact ⟨groupBy_key_mem key proj alt cs p hp, fun a => groupBy_mem_iff key proj alt cs p hp a⟩
  · rintro ⟨⟨d, hd, hk⟩, hbucket⟩
    obtain ⟨p, hp, hkp, _⟩ := hcompl d hd
    refine List.mem_map.2 ⟨p, hp, ?_⟩
    have h2 : p.2 = x.2 := by
      ext a
      rw [groupBy_mem_iff key proj alt cs p hp a, hbucket a, hkp, hk]
    exact Prod.ext (hkp.trans hk) h2

/-- Two lists of elements that define the same relation between keys and
alternatives are grouped into the same keys and buckets, in the same order. -/
theorem groupBy_congr {C E K : Type} [LinearOrder K] (key : E → K) (proj : C → E)
    (alt : C → Nat) (cs cs' : List C)
    (h : ∀ k a, (∃ d ∈ cs, key (proj d) = k ∧ alt d = a) ↔
      (∃ d ∈ cs', key (proj d) = k ∧ alt d = a)) :
    (cs.foldl (fun m c => mapSetBit key (proj c) (alt c) m) []).map (fun p => (key p.1, p.2)) =
      (cs'.foldl (fun m c => mapSetBit key (proj c) (alt c) m) []).map
        (fun p => (key p.1, p.2)) := by
  haveI : IsAntisymm (K × BitSet) (fun x y => x.1 < y.1) :=
    ⟨fun _ _ h1 h2 => absurd h1 (lt_asymm h2)⟩
  have hkeys : ∀ k, (∃ d ∈ cs, key (proj d) = k) ↔ (∃ d ∈ cs', key (proj d) = k) := by
    intro k
    constructor
    · rintro ⟨d, hd, hk⟩
      obtain ⟨d', hd', hk', _⟩ := (h k (alt d)).1 ⟨d, hd, hk, rfl⟩
      exact ⟨d', hd', hk'⟩
    · rintro ⟨d, hd, hk⟩
      obtain ⟨d', hd', hk', _⟩ := (h k (alt d)).2 ⟨d, hd, hk, rfl⟩
      exact ⟨d', hd', hk'⟩
  have hs : ∀ l : List C, ((l.foldl (fun m c => mapSetBit key (proj c) (alt c) m) []).map
      (fun p => (key p.1, p.2))).Pairwise (fun x y => x.1 < y.1) := by
    intro l
    rw [List.pairwise_map]
    exact (groupBy_inv key proj alt l).1
  have hnd : ∀ l : List C, ((l.foldl (fun m c => mapSetBit key (proj c) (alt c) m) []).map
      (fun p => (key p.1, p.2))).Nodup := by
    intro l
    refine List.Pairwise.imp ?_ (hs l)
    intro x y hlt hxy
    rw [hxy] at hlt
    exact lt_irrefl _ hlt
  refine List.eq_of_perm_of_sorted ((List.perm_ext_iff_of_nodup (hnd cs) (hnd cs')).2 ?_)
    (hs cs) (hs cs')
  intro x
  rw [groupBy_entry_iff, groupBy_entry_iff, hkeys x.1]
  simp only [h x.1]

theorem dupWithoutPredicates_relation {Ctx Sem : Type} [LinearOrder Ctx]
    (configs : ATNConfigSet Ctx Sem) (k : Lex (Int × Ctx)) (a : Nat) :
    (∃ d ∈ (dupWithoutPredicates configs).configs, conflictKey d = k ∧ d.alt = a) ↔
      (∃ c ∈ configs.configs, conflictKey c = k ∧ c.alt = a) := by
  constructor
  · rintro ⟨d, hd, hk, ha⟩
    obtain ⟨c, hc, rfl⟩ := mem_dupWithoutPredicates configs d hd
    exact ⟨c, hc, hk, ha⟩
  · rintro ⟨c, hc, hk, ha⟩
    obtain ⟨d, hd, hkd, had⟩ :=
      dupWithoutPredicates_fold_complete configs.configs ATNConfigSet.empty c hc
    exact ⟨d, hd, hkd.trans hk, had.trans ha⟩

theorem getConflictingAltSubsets_dup {Ctx Sem : Type} [LinearOrder Ctx]
    (configs : ATNConfigSet Ctx Sem) :
    getConflictingAltSubsets (dupWithoutPredicates configs) =
      getConflictingAltSubsets configs := by
  have h := groupBy_congr conflictKey id ATNConfig.alt (dupWithoutPredicates configs).configs
    configs.configs (fun k a => dupWithoutPredicates_relation configs k a)
  have h' := congrArg (List.map Prod.snd) h
  simp only [List.map_map] at h'
  exact h'

theorem getStateToAltMap_dup {Ctx Sem : Type} [LinearOrder Ctx]
    (configs : ATNConfigSet Ctx Sem) :
    (getStateToAltMap (dupWithoutPredicates configs)).map (fun e => (e.1.stateNumber, e.2)) =
      (getStateToAltMap configs).map (fun e => (e.1.stateNumber, e.2)) := by
  refine groupBy_congr ATNState.stateNumber
    (fun c : ATNConfig Ctx Sem => ATNState.slice c.state) ATNConfig.alt
    (dupWithoutPredicates configs).configs configs.configs ?_
  intro k a
  constructor
  · rintro ⟨d, hd, hk, ha⟩
    obtain ⟨c, hc, rfl⟩ := mem_dupWithoutPredicates configs d hd
    exact ⟨c, hc, hk, ha⟩
  · rintro ⟨c, hc, hk, ha⟩
    obtain ⟨d, hd, hkd, had⟩ :=
      dupWithoutPredicates_fold_complete configs.configs ATNConfigSet.empty c hc
    have hkd' := (conflictKey_eq_iff d (c.withSemanticContext none)).1 hkd
    simp only [ATNConfig.withSemanticContext, Prod.mk.injEq] at hkd'
    exact ⟨d, hd, hkd'.1.trans hk, had.trans ha⟩

theorem hasStateAssociatedWithOneAlt_dup {Ctx Sem : Type} [LinearOrder Ctx]
    (configs : ATNConfigSet Ctx Sem) :
    hasStateAssociatedWithOneAlt (dupWithoutPredicates configs) =
      hasStateAssociatedWithOneAlt configs := by
  have h := congrArg (List.map Prod.snd) (getStateToAltMap_dup configs)
  simp only [List.map_map] at h
  have hany : ∀ m : List (ATNState × BitSet),
      m.any (fun e => BitSet.count e.2 == 1) =
        (m.map (Prod.snd ∘ fun e => (e.1.stateNumber, e.2))).any (fun s => BitSet.count s == 1) := by
    intro m
    induction m with
    | nil => rfl
    | cons e rest ih =>
      simp only [List.any_cons, List.map_cons, Function.comp_apply, ih]
  unfold hasStateAssociatedWithOneAlt
  rw [hany, hany, h]

/-- C30: with configuration sets as sets of configurations, the
predicate-stripped duplicate is grouped by `getConflictingAltSubsets` into the
same alternative subsets as the original set and by `getStateToAltMap` into the
same alt-set per state, so `hasSLLConflictTerminatingPrediction` returns in SLL
mode what it returns in LL mode. -/
theorem predicate_stripping_keeps_classification {Ctx Sem : Type} [LinearOrder Ctx]
    (configs : ATNConfigSet Ctx Sem) :
    (getConflictingAltSubsets (dupWithoutPredicates configs)).Perm
        (getConflictingAltSubsets configs) ∧
      (getStateToAltMap (dupWithoutPredicates configs)).map (fun e => (e.1.stateNumber, e.2)) =
        (getStateToAltMap configs).map (fun e => (e.1.stateNumber, e.2)) ∧
      hasSLLConflictTerminatingPrediction PredictionMode.SLL configs =
        hasSLLConflictTerminatingPrediction PredictionMode.LL configs := by
  refine ⟨?_, getStateToAltMap_dup configs, ?_⟩
  · rw [getConflictingAltSubsets_dup]
  · unfold hasSLLConflictTerminatingPrediction analysedConfigs
    cases hsem : configs.hasSemanticContext
    · simp
    · simp [getConflictingAltSubsets_dup, hasStateAssociatedWithOneAlt_dup]

/-- An instance of C30 on a set with predicates: the stripped duplicate has the
single bucket {1, 2} of the original set. -/
theorem predicate_stripping_sample :
    getConflictingAltSubsets (dupWithoutPredicates samplePredicated) = [{1, 2}] ∧
      getConflictingAltSubsets samplePredicated = [{1, 2}] := by
  decide

/-! ## Matching a token -/

theorem Parser.consume_index (h : ANTLRErrorStrategy) (p : Parser) :
    (p.consume h).1 = p.getCurrentToken ∧ (p.consume h).2.index = p.index + 1 := by
  unfold Parser.consume
  simp only
  split_ifs <;> exact ⟨rfl, rfl⟩

theorem Parser.consume_precedenceStack (h : ANTLRErrorStrategy) (p : Parser) :
    (p.consume h).2._precedenceStack = p._precedenceStack := by
  unfold Parser.consume
  simp only
  split_ifs <;> rfl

theorem Parser.acceptToken_precedenceStack (h : ANTLRErrorStrategy) (p : Parser) (t : Token) :
    (p.acceptToken h t).parser._precedenceStack = p._precedenceStack := by
  unfold Parser.acceptToken
  simp only [Parser.consume_precedenceStack]
  rfl

theorem Parser.recoverInline_precedenceStack (h : ANTLRErrorStrategy) (p : Parser) :
    (p.recoverInline h).parser._precedenceStack = p._precedenceStack := by
  unfold Parser.recoverInline
  cases h.recoverInline p.toParserPublic with
  | error e => rfl
  | ok r =>
    obtain ⟨t, q⟩ := r
    simp only
    split_ifs <;> rfl

theorem Parser.matchType_precedenceStack (h : ANTLRErrorStrategy) (p : Parser) (ttype : Int) :
    (p.matchType h ttype).parser._precedenceStack = p._precedenceStack := by
  unfold Parser.matchType
  simp only
  split_ifs
  · exact Parser.acceptToken_precedenceStack h p _
  · exact Parser.recoverInline_precedenceStack h p

theorem Parser.matchWildcard_precedenceStack (h : ANTLRErrorStrategy) (p : Parser) :
    (p.matchWildcard h).parser._precedenceStack = p._precedenceStack := by
  unfold Parser.matchWildcard
  simp only
  split_ifs
  · exact Parser.acceptToken_precedenceStack h p _
  · exact Parser.recoverInline_precedenceStack h p

/-- C21: when the lookahead has the expected type (for `matchWildcard`, a type
greater than 0), `match` calls `reportMatch` on the error strategy and nothing
else, consumes the token and returns the token that was current before the
call. -/
theorem match_accepts (h : ANTLRErrorStrategy) (p : Parser) (ttype : Int) :
    (p.getCurrentToken.type = ttype →
        (p.matchType h ttype).calls = [StrategyCall.reportMatch] ∧
        StrategyCall.recoverInline ∉ (p.matchType h ttype).calls ∧
        (p.matchType h ttype).result = .ok p.getCurrentToken ∧
        (p.matchType h ttype).parser =
          ((p.withPublic (h.reportMatch p.toParserPublic)).consume h).2 ∧
        (p.matchType h ttype).parser.index = (h.reportMatch p.toParserPublic).index + 1) ∧
      (p.getCurrentToken.type > 0 →
        (p.matchWildcard h).calls = [StrategyCall.reportMatch] ∧
        StrategyCall.recoverInline ∉ (p.matchWildcard h).calls ∧
        (p.matchWildcard h).result = .ok p.getCurrentToken ∧
        (p.matchWildcard h).parser =
          ((p.withPublic (h.reportMatch p.toParserPublic)).consume h).2 ∧
        (p.matchWildcard h).parser.index = (h.reportMatch p.toParserPublic).index + 1) := by
  have hidx : (((p.withPublic (h.reportMatch p.toParserPublic)).consume h).2).index =
      (h.reportMatch p.toParserPublic).index + 1 :=
    (Parser.consume_index h _).2
  constructor
  · intro hm
    unfold Parser.matchType
    simp only [hm, if_true]
    refine ⟨rfl, by simp [Parser.acceptToken], rfl, rfl, hidx⟩
  · intro hm
    unfold Parser.matchWildcard
    simp only [hm, if_true]
    refine ⟨rfl, by simp [Parser.acceptToken], rfl, rfl, hidx⟩

/-- Witness of C21: `match(4)` and `matchWildcard()` with a lookahead of type 4. -/
theorem match_accepts_witness :
    ((sampleParser.matchType sampleStrategy 4).calls = [StrategyCall.reportMatch] ∧
        StrategyCall.recoverInline ∉ (sampleParser.matchType sampleStrategy 4).calls ∧
        (sampleParser.matchType sampleStrategy 4).result = .ok sampleParser.getCurrentToken ∧
        (sampleParser.matchType sampleStrategy 4).parser =
          ((sampleParser.withPublic
            (sampleStrategy.reportMatch sampleParser.toParserPublic)).consume sampleStrategy).2 ∧
        (sampleParser.matchType sampleStrategy 4).parser.index =
          (sampleStrategy.reportMatch sampleParser.toParserPublic).index + 1) ∧
      ((sampleParser.matchWildcard sampleStrategy).calls = [StrategyCall.reportMatch] ∧
        StrategyCall.recoverInline ∉ (sampleParser.matchWildcard sampleStrategy).calls ∧
        (sampleParser.matchWildcard sampleStrategy).result = .ok sampleParser.getCurrentToken ∧
        (sampleParser.matchWildcard sampleStrategy).parser =
          ((sampleParser.withPublic
            (sampleStrategy.reportMatch sampleParser.toParserPublic)).consume sampleStrategy).2 ∧
        (sampleParser.matchWildcard sampleStrategy).parser.index =
          (sampleStrategy.reportMatch sampleParser.toParserPublic).index + 1) :=
  ⟨(match_accepts sampleStrategy sampleParser 4).1 (by decide),
    (match_accepts sampleStrategy sampleParser 4).2 (by decide)⟩

/-- C22: when the lookahead does not have the expected type, `match` calls
`recoverInline` on the error strategy exactly once and nothing else; it returns
the token recovery returns (or raises the failure recovery raises), and with
tree building on a returned token of index -1 is appended to the children of
the current context as an error node, any other token is not attached. -/
theorem match_mismatch (h : ANTLRErrorStrategy) (p : Parser) (ttype : Int)
    (hm : p.getCurrentToken.type ≠ ttype) :
    (p.matchType h ttype).calls = [StrategyCall.recoverInline] ∧
      (p.matchType h ttype).calls.count StrategyCall.recoverInline = 1 ∧
      (∀ e, h.recoverInline p.toParserPublic = .error e →
        (p.matchType h ttype).result = .error e) ∧
      (∀ t q, h.recoverInline p.toParserPublic = .ok (t, q) →
        (p.matchType h ttype).result = .ok t ∧
        (p.matchType h ttype).parser._ctx.children =
          (if q._buildParseTrees = true ∧ t.tokenIndex = -1
            then q._ctx.children ++ [ParseTreeNode.errorNode t] else q._ctx.children)) := by
  have hrun : p.matchType h ttype = p.recoverInline h := by
    unfold Parser.matchType
    simp only [hm, if_false]
  rw [hrun]
  refine ⟨?_, ?_, ?_, ?_⟩
  · unfold Parser.recoverInline
    cases h.recoverInline p.toParserPublic with
    | error e => rfl
    | ok r => rfl
  · unfold Parser.recoverInline
    cases h.recoverInline p.toParserPublic with
    | error e => rfl
    | ok r => rfl
  · intro e he
    unfold Parser.recoverInline
    rw [he]
  · intro t q hq
    unfold Parser.recoverInline
    rw [hq]
    refine ⟨rfl, ?_⟩
    simp only [Parser.withPublic]
    split_ifs <;> rfl

/-- Witness of C22: `match(SEMI)` with the lookahead IDENTIFIER and a strategy
that conjures a SEMI token of index -1; the token is returned and the context
gains an error node for it. -/
theorem match_mismatch_witness :
    (sampleParser.matchType sampleStrategy 9).calls.count StrategyCall.recoverInline = 1 ∧
      (sampleParser.matchType sampleStrategy 9).result = .ok { type := 9, tokenIndex := -1 } ∧
      (sampleParser.matchType sampleStrategy 9).parser._ctx.children =
        [ParseTreeNode.errorNode { type := 9, tokenIndex := -1 }] :=
  ⟨(match_mismatch sampleStrategy sampleParser 9 (by decide)).2.1,
    ((match_mismatch sampleStrategy sampleParser 9 (by decide)).2.2.2
      { type := 9, tokenIndex := -1 } sampleParser.toParserPublic rfl).1,
    ((match_mismatch sampleStrategy sampleParser 9 (by decide)).2.2.2
      { type := 9, tokenIndex := -1 } sampleParser.toParserPublic rfl).2⟩

/-! ## The precedence stack -/

/-- A rule body leaves the precedence stack as it found it, whether it ends or
raises. -/
theorem RuleBody.exec_precedenceStack (h : ANTLRErrorStrategy) (body : RuleBody) :
    ∀ p : Parser, (body.exec h p).1._precedenceStack = p._precedenceStack := by
  induction body with
  | done => intro p; rfl
  | matchType ttype rest ih =>
    intro p
    simp only [RuleBody.exec]
    cases (p.matchType h ttype).result with
    | error e => exact Parser.matchType_precedenceStack h p ttype
    | ok t => exact (ih _).trans (Parser.matchType_precedenceStack h p ttype)
  | matchWildcard rest ih =>
    intro p
    simp only [RuleBody.exec]
    cases (p.matchWildcard h).result with
    | error e => exact Parser.matchWildcard_precedenceStack h p
    | ok t => exact (ih _).trans (Parser.matchWildcard_precedenceStack h p)
  | consume rest ih =>
    intro p
    simp only [RuleBody.exec]
    exact (ih _).trans (Parser.consume_precedenceStack h p)
  | pushNewRecursionContext localctx state ruleIndex rest ih =>
    intro p
    simp only [RuleBody.exec]
    exact (ih _).trans rfl
  | recursionRule localctx state ruleIndex precedence body rest ihb ihr =>
    intro p
    have hb := ihb (p.enterRecursionRule localctx state ruleIndex precedence)
    have hu : ((body.exec h (p.enterRecursionRule localctx state ruleIndex
        precedence)).1.unrollRecursionContexts p._ctx)._precedenceStack = p._precedenceStack := by
      simp only [Parser.unrollRecursionContexts]
      rw [hb]
      rfl
    simp only [RuleBody.exec]
    cases (body.exec h (p.enterRecursionRule localctx state ruleIndex precedence)).2 with
    | some e => exact hu
    | none => exact (ihr _).trans hu
  | raise e => intro p; rfl

/-- C23: around an activation of a left-recursive rule the precedence stack is
balanced: `enterRecursionRule` makes it one deeper, the body (which may raise a
recognition failure, also inside nested activations) leaves its depth alone, and
after the matching `unrollRecursionContexts` the depth is the one before
`enterRecursionRule`. -/
theorem precedenceStack_balanced (h : ANTLRErrorStrategy) (p : Parser)
    (localctx : ParserRuleContext) (state ruleIndex precedence : Int) (body rest : RuleBody) :
    (p.enterRecursionRule localctx state ruleIndex precedence)._precedenceStack.length =
        p._precedenceStack.length + 1 ∧
      (((body.exec h (p.enterRecursionRule localctx state ruleIndex
          precedence)).1.unrollRecursionContexts p._ctx)._precedenceStack.length =
        p._precedenceStack.length) ∧
      ((RuleBody.recursionRule localctx state ruleIndex precedence body rest).exec h
          p).1._precedenceStack.length = p._precedenceStack.length := by
  refine ⟨rfl, ?_, ?_⟩
  · simp only [Parser.unrollRecursionContexts]
    rw [RuleBody.exec_precedenceStack]
    rfl
  · rw [RuleBody.exec_precedenceStack]

/-- An instance of C23: a body that fails inside a nested activation leaves the
stack of depth 1 and propagates the failure. -/
theorem precedenceStack_sample :
    ((sampleBody.exec sampleStrategy sampleParser).1._precedenceStack = [0]) ∧
      (sampleBody.exec sampleStrategy sampleParser).2 =
        some RecognitionFailure.noViableAlternative := by
  decide

/-! ## Relations between the queries -/

theorem getSingleViableAlt_of_common_min (a : Bool) (inv : Int) (l : List BitSet) (m : Nat)
    (hne : l ≠ []) (hs : ∀ s ∈ l, s.Nonempty) (hm : ∀ s ∈ l, Finset.min s = (m : WithTop Nat)) :
    getSingleViableAlt a inv l = .ok (m : Int) := by
  cases l with
  | nil => exact absurd rfl hne
  | cons s rest =>
    have hs0 : s.Nonempty := hs s (List.mem_cons_self _ _)
    have hrest : ∀ t ∈ rest, t.Nonempty := fun t ht => hs t (List.mem_cons_of_mem _ ht)
    have hmin : Finset.min s = ((Finset.min' s hs0 : Nat) : WithTop Nat) :=
      (firstSetBit_eq_min s _).1 (firstSetBit_of_nonempty s hs0)
    have hmm : Finset.min' s hs0 = m :=
      WithTop.coe_injective (hmin.symm.trans (hm s (List.mem_cons_self _ _)))
    rw [getSingleViableAlt_cons a inv s rest hs0 hrest, hmm, if_pos]
    intro t ht
    exact hm t (List.mem_cons_of_mem _ ht)

theorem getSingleViableAlt_of_no_common_min (a : Bool) (inv : Int) (l : List BitSet)
    (hne : l ≠ []) (hs : ∀ s ∈ l, s.Nonempty)
    (hm : ¬ ∃ m : Nat, ∀ s ∈ l, Finset.min s = (m : WithTop Nat)) :
    getSingleViableAlt a inv l = .ok inv := by
  cases l with
  | nil => exact absurd rfl hne
  | cons s rest =>
    have hs0 : s.Nonempty := hs s (List.mem_cons_self _ _)
    have hrest : ∀ t ∈ rest, t.Nonempty := fun t ht => hs t (List.mem_cons_of_mem _ ht)
    have hmin : Finset.min s = ((Finset.min' s hs0 : Nat) : WithTop Nat) :=
      (firstSetBit_eq_min s _).1 (firstSetBit_of_nonempty s hs0)
    rw [getSingleViableAlt_cons a inv s rest hs0 hrest, if_neg]
    intro hall
    apply hm
    refine ⟨Finset.min' s hs0, ?_⟩
    intro t ht
    rcases List.mem_cons.1 ht with rfl | ht
    · exact hmin
    · exact hall t ht

/-- C31: `getSingleViableAlt` depends on the set of buckets only: two non-empty
lists of non-empty subsets with the same members (a permutation of a list, or a
list with elements repeated) give the same result. -/
theorem getSingleViableAlt_order_independent (assertsOn : Bool) (inv : Int)
    (l₁ l₂ : List BitSet) (hne : l₁ ≠ []) (hs : ∀ s ∈ l₁, s.Nonempty)
    (hmem : ∀ s, s ∈ l₁ ↔ s ∈ l₂) :
    getSingleViableAlt assertsOn inv l₁ = getSingleViableAlt assertsOn inv l₂ := by
  have hne₂ : l₂ ≠ [] := by
    obtain ⟨s, hs1⟩ := List.exists_mem_of_ne_nil _ hne
    exact List.ne_nil_of_mem ((hmem s).1 hs1)
  have hs₂ : ∀ s ∈ l₂, s.Nonempty := fun s h => hs s ((hmem s).2 h)
  by_cases hm : ∃ m : Nat, ∀ s ∈ l₁, Finset.min s = (m : WithTop Nat)
  · obtain ⟨m, hm⟩ := hm
    rw [getSingleViableAlt_of_common_min assertsOn inv l₁ m hne hs hm,
      getSingleViableAlt_of_common_min assertsOn inv l₂ m hne₂ hs₂
        (fun s h => hm s ((hmem s).2 h))]
  · have hm₂ : ¬ ∃ m : Nat, ∀ s ∈ l₂, Finset.min s = (m : WithTop Nat) := by
      rintro ⟨m, h⟩
      exact hm ⟨m, fun s h1 => h s ((hmem s).1 h1)⟩
    rw [getSingleViableAlt_of_no_common_min assertsOn inv l₁ hne hs hm,
      getSingleViableAlt_of_no_common_min assertsOn inv l₂ hne₂ hs₂ hm₂]

/-- Witness of C31: the buckets {1, 2}, {2, 3} against the same buckets in the
other order with one of them repeated; the early return is taken at different
rounds. -/
theorem getSingleViableAlt_order_independent_witness :
    getSingleViableAlt true 0 [{1, 2}, {2, 3}] =
      getSingleViableAlt true 0 [{2, 3}, {2, 3}, {1, 2}] :=
  getSingleViableAlt_order_independent true 0 [{1, 2}, {2, 3}] [{2, 3}, {2, 3}, {1, 2}]
    (by decide) (by decide) (by
      intro s
      simp only [List.mem_cons, List.mem_singleton, List.not_mem_nil, or_false]
      tauto)

/-- C32: on a list of non-empty subsets, when `getUniqueAlt` returns something
other than the sentinel, `getSingleViableAlt` returns the same alternative,
`hasConflictingAltSet` is false and `allSubsetsEqual` is true. -/
theorem getUniqueAlt_agrees (assertsOn : Bool) (inv : Int) (altsets : List BitSet)
    (hs : ∀ s ∈ altsets, s.Nonempty) (hu : getUniqueAlt inv altsets ≠ inv) :
    getSingleViableAlt assertsOn inv altsets = .ok (getUniqueAlt inv altsets) ∧
      hasConflictingAltSet altsets = false ∧
      allSubsetsEqual altsets = true := by
  have hcard : (getAlts altsets).card = 1 := by
    by_contra hc
    apply hu
    simp only [getUniqueAlt, BitSet.count, hc, if_false]
  obtain ⟨i, hi⟩ := Finset.card_eq_one.1 hcard
  have hval : getUniqueAlt inv altsets = (i : Int) := by
    simp only [getUniqueAlt, BitSet.count, hi, Finset.card_singleton, if_true,
      firstSetBit_singleton]
  have hall : ∀ s ∈ altsets, s = {i} := by
    intro s hs1
    obtain ⟨x, hx⟩ := hs s hs1
    have hsub : ∀ y ∈ s, y = i := by
      intro y hy
      have : y ∈ getAlts altsets := (mem_getAlts altsets y).2 ⟨s, hs1, hy⟩
      rw [hi] at this
      exact Finset.mem_singleton.1 this
    ext y
    rw [Finset.mem_singleton]
    constructor
    · exact hsub y
    · rintro rfl
      rw [← hsub x hx]
      exact hx
  have hne : altsets ≠ [] := by
    intro h
    have : i ∈ getAlts altsets := by rw [hi]; exact Finset.mem_singleton_self i
    obtain ⟨s, hs1, _⟩ := (mem_getAlts altsets i).1 this
    rw [h] at hs1
    cases hs1
  refine ⟨?_, ?_, ?_⟩
  · rw [hval]
    refine getSingleViableAlt_of_common_min assertsOn inv altsets i hne hs ?_
    intro s hs1
    rw [hall s hs1]
    exact Finset.min_singleton
  · rw [Bool.eq_false_iff]
    unfold hasConflictingAltSet
    rw [Ne, List.any_eq_true]
    rintro ⟨s, hs1, hc⟩
    rw [hall s hs1] at hc
    simp [BitSet.count] at hc
  · cases hl : altsets with
    | nil => rfl
    | cons first rest =>
      rw [hl] at hall
      simp only [allSubsetsEqual, List.all_eq_true, Bool.not_eq_true', decide_eq_false_iff_not,
        ne_eq, not_not]
      intro s hs1
      rw [hall s hs1, hall first (List.mem_cons_self _ _)]

/-- Witness of C32 on two buckets {3}. -/
theorem getUniqueAlt_agrees_witness :
    getSingleViableAlt true 0 [{3}, {3}] = .ok (getUniqueAlt 0 [{3}, {3}]) ∧
      hasConflictingAltSet [{3}, {3}] = false ∧
      allSubsetsEqual [{3}, {3}] = true :=
  getUniqueAlt_agrees true 0 [{3}, {3}] (by decide) (by decide)

/-- C33: the grouping by state coarsens the grouping by conflict key: the
alt-set of a state in `getStateToAltMap` is the union of the buckets of
`configToAlts` whose key has that state number; a conflicting bucket gives a
state with at least two alternatives; and the values of `getStateToAltMap` have
the same union as the buckets of `getConflictingAltSubsets`. -/
theorem getStateToAltMap_coarsens {Ctx Sem : Type} [LinearOrder Ctx]
    (configs : ATNConfigSet Ctx Sem) :
    (∀ e ∈ getStateToAltMap configs, ∀ a : Nat,
        a ∈ e.2 ↔ ∃ p ∈ configToAlts configs,
          p.1.state.stateNumber = e.1.stateNumber ∧ a ∈ p.2) ∧
      (hasConflictingAltSet (getConflictingAltSubsets configs) = true →
        ∃ e ∈ getStateToAltMap configs, 2 ≤ Finset.card e.2) ∧
      getAlts ((getStateToAltMap configs).map Prod.snd) =
        getAlts (getConflictingAltSubsets configs) := by
  have hunion : ∀ e ∈ getStateToAltMap configs, ∀ a : Nat,
      a ∈ e.2 ↔ ∃ p ∈ configToAlts configs,
        p.1.state.stateNumber = e.1.stateNumber ∧ a ∈ p.2 := by
    intro e he a
    rw [getStateToAltMap_mem_iff configs e he a]
    constructor
    · rintro ⟨c, hc, hst, rfl⟩
      obtain ⟨p, hp, hk, hcp⟩ := configToAlts_complete configs c hc
      have hk' := (conflictKey_eq_iff p.1 c).1 hk
      simp only [Prod.mk.injEq] at hk'
      exact ⟨p, hp, hk'.1.trans hst, hcp⟩
    · rintro ⟨p, hp, hst, hap⟩
      obtain ⟨c, hc, hk, hca⟩ := (mem_configToAlts_iff configs p hp a).1 hap
      have hk' := (conflictKey_eq_iff c p.1).1 hk
      simp only [Prod.mk.injEq] at hk'
      exact ⟨c, hc, hk'.1.trans hst, hca⟩
  refine ⟨hunion, ?_, ?_⟩
  · intro hconf
    unfold hasConflictingAltSet at hconf
    rw [List.any_eq_true] at hconf
    obtain ⟨s, hs, hcount⟩ := hconf
    unfold getConflictingAltSubsets at hs
    obtain ⟨p, hp, rfl⟩ := List.mem_map.1 hs
    simp only [BitSet.count, gt_iff_lt, decide_eq_true_eq] at hcount
    obtain ⟨c, hc, hk⟩ := configToAlts_key_mem configs p hp
    obtain ⟨e, he, hke, _⟩ :=
      (groupBy_inv ATNState.stateNumber (fun c : ATNConfig Ctx Sem => ATNState.slice c.state)
        ATNConfig.alt configs.configs).2.2.1 c hc
    have hk' := (conflictKey_eq_iff c p.1).1 hk
    simp only [Prod.mk.injEq] at hk'
    have hsub : p.2 ⊆ e.2 := by
      intro a ha
      exact (hunion e he a).2 ⟨p, hp, hk'.1.symm.trans hke.symm, ha⟩
    have := Finset.card_le_card hsub
    exact ⟨e, he, by omega⟩
  · ext x
    rw [mem_getAlts, mem_getAlts_conflicting]
    constructor
    · rintro ⟨s, hs, hx⟩
      obtain ⟨e, he, rfl⟩ := List.mem_map.1 hs
      obtain ⟨c, hc, _, hca⟩ := (getStateToAltMap_mem_iff configs e he x).1 hx
      exact ⟨c, hc, hca⟩
    · rintro ⟨c, hc, rfl⟩
      obtain ⟨e, he, _, hce⟩ :=
        (groupBy_inv ATNState.stateNumber (fun c : ATNConfig Ctx Sem => ATNState.slice c.state)
          ATNConfig.alt configs.configs).2.2.1
          c hc
      exact ⟨e.2, List.mem_map.2 ⟨e, he, rfl⟩, hce⟩

/-- Witness of C33 on {(state 5, alt 1, ctx 0), (state 5, alt 2, ctx 0)}, whose
single bucket conflicts: state 5 has the two alternatives. -/
theorem getStateToAltMap_coarsens_witness :
    ∃ e ∈ getStateToAltMap sampleConflict, 2 ≤ Finset.card e.2 :=
  (getStateToAltMap_coarsens sampleConflict).2.1 (by decide)

/-- An instance of C33 where the state grouping is strictly coarser: state 5
occurs under two contexts, with the buckets {1} and {2} and the alt-set {1, 2}. -/
theorem getStateToAltMap_coarsens_sample :
    getConflictingAltSubsets sampleTwoStates = [{1}, {2}, {2}] ∧
      (getStateToAltMap sampleTwoStates).map Prod.snd = [{1, 2}, {2}] := by
  decide

/-- C34: on a list of non-empty subsets `allSubsetsConflict` returns true
exactly when every subset has at least two alternatives; on the empty list, and
on a list of empty subsets only, it returns true although
`hasConflictingAltSet` returns false. -/
theorem allSubsetsConflict_degenerate (altsets : List BitSet) :
    ((∀ s ∈ altsets, s.Nonempty) →
        (allSubsetsConflict altsets = true ↔ ∀ s ∈ altsets, 2 ≤ Finset.card s)) ∧
      (allSubsetsConflict [] = true ∧ hasConflictingAltSet [] = false) ∧
      ((∀ s ∈ altsets, s = ∅) →
        allSubsetsConflict altsets = true ∧ hasConflictingAltSet altsets = false) := by
  have hiff : allSubsetsConflict altsets = true ↔ ∀ s ∈ altsets, Finset.card s ≠ 1 := by
    unfold allSubsetsConflict hasNonConflictingAltSet
    rw [Bool.not_eq_true', ← Bool.not_eq_true, List.any_eq_true]
    simp only [BitSet.count, beq_iff_eq, not_exists, not_and]
  refine ⟨?_, ⟨rfl, rfl⟩, ?_⟩
  · intro hs
    rw [hiff]
    constructor
    · intro h s hs1
      have h1 := h s hs1
      have h2 : 0 < Finset.card s := Finset.card_pos.2 (hs s hs1)
      omega
    · intro h s hs1
      have := h s hs1
      omega
  · intro hempty
    constructor
    · rw [hiff]
      intro s hs1
      rw [hempty s hs1]
      simp
    · rw [Bool.eq_false_iff]
      unfold hasConflictingAltSet
      rw [Ne, List.any_eq_true]
      rintro ⟨s, hs1, hc⟩
      rw [hempty s hs1] at hc
      simp [BitSet.count] at hc

/-- Witness of C34: the buckets {1, 2} and {2, 3, 4} all conflict, and a list of
two empty subsets makes `allSubsetsConflict` true without any conflict. -/
theorem allSubsetsConflict_degenerate_witness :
    (allSubsetsConflict [{1, 2}, {2, 3, 4}] = true ↔
        ∀ s ∈ ([{1, 2}, {2, 3, 4}] : List BitSet), 2 ≤ Finset.card s) ∧
      (allSubsetsConflict [∅, ∅] = true ∧ hasConflictingAltSet [∅, ∅] = false) :=
  ⟨(allSubsetsConflict_degenerate [{1, 2}, {2, 3, 4}]).1 (by decide),
    (allSubsetsConflict_degenerate [∅, ∅]).2.2 (by decide)⟩

end Atn
